import Mathlib

/-!
Shallow embedding of the HomeNest rent-accounting engine.

The two authoritative implementations are:
* the single-tenant billing computation calculateTenantStatusAndDue in the
  tenants route file (src/unnamed/part_007), embedded below in namespace
  Tenants; and
* the per-property multi-period billing computation
  calculateTenantStatusAndDue in the properties route file
  (src/unnamed/part_004), embedded below in namespace Properties.

Modelling conventions:
* JavaScript Date values are modelled at day granularity by the HDate
  structure (year, 0-based month, 1-based day of month), ordered
  lexicographically; this is the order induced by the millisecond
  timestamps the source compares.
* JavaScript numbers are modelled by the rationals; the only arithmetic
  performed is addition, subtraction, multiplication, division by 2 and
  comparisons, all exact on the values in range.
* Mongo ObjectIds (property and unit identifiers) are modelled by natural
  numbers; the normalisation of populated documents to raw identifiers at
  the top of the properties-route function is the identity in this model.
* The expression (x || 0) on a numeric x is the identity for every rational
  except that 0 maps to 0, so it is embedded as x itself.
-/

set_option allowUnsafeReducibility true
attribute [semireducible] Rat.add Rat.sub Rat.mul Rat.div Rat.inv Rat.neg

/-- A calendar date: year, 0-based month (as returned by getMonth) and
1-based day of month (as returned by getDate). -/
structure HDate where
  year : Nat
  month : Nat
  day : Nat
deriving DecidableEq, Repr

/-- Lexicographic order on dates; this is the order of the underlying
millisecond timestamps at day granularity. -/
def HDate.le (a b : HDate) : Prop :=
  a.year < b.year ∨ (a.year = b.year ∧
    (a.month < b.month ∨ (a.month = b.month ∧ a.day ≤ b.day)))

/-- Strict lexicographic order on dates. -/
def HDate.lt (a b : HDate) : Prop :=
  a.year < b.year ∨ (a.year = b.year ∧
    (a.month < b.month ∨ (a.month = b.month ∧ a.day < b.day)))

instance (a b : HDate) : Decidable (HDate.le a b) := by
  unfold HDate.le; infer_instance

instance (a b : HDate) : Decidable (HDate.lt a b) := by
  unfold HDate.lt; infer_instance

/-- The maximum of two dates, as computed by Math.max on timestamps. -/
def HDate.max (a b : HDate) : HDate := if HDate.le a b then b else a

/-- Leap-year test of the Gregorian calendar (the rule implemented by the
JavaScript Date type). -/
def isLeapYear (y : Nat) : Bool :=
  (y % 4 == 0 && y % 100 != 0) || y % 400 == 0

/-- Number of days in the given 0-based month of the given year, as
returned by new Date(year, month + 1, 0).getDate(). -/
def daysInMonth (y m : Nat) : Nat :=
  if m = 1 then (if isLeapYear y then 29 else 28)
  else if m = 3 ∨ m = 5 ∨ m = 8 ∨ m = 10 then 30
  else 31

/-- Index of a calendar month on the time line (year times 12 plus month). -/
def HDate.toYM (d : HDate) : Nat := d.year * 12 + d.month

/-- The date with the given day number inside the month with index ym. -/
def ymDate (ym day : Nat) : HDate := ⟨ym / 12, ym % 12, day⟩

/-- Number of days of the month with index ym. -/
def monthLen (ym : Nat) : Nat := daysInMonth (ym / 12) (ym % 12)

/-- A rent-rate change event: an amount and the instant it becomes
effective. -/
structure RentChange where
  amount : ℚ
  effectiveFrom : HDate
deriving DecidableEq, Repr

/-- A recorded payment; rentType is "flat_rent", "electricity" or absent on
legacy entries. The payment date is irrelevant to both computations and is
kept only to show that the allocator ignores it. -/
structure Payment where
  amount : ℚ
  rentType : Option String
  paidAt : Option HDate
deriving DecidableEq, Repr

/-- An assignment-history log entry. -/
structure HistEntry where
  propertyId : Option Nat
  unitId : Option Nat
  updatedAt : HDate
deriving DecidableEq, Repr

/-- The tenant snapshot consumed by both billing computations. -/
structure Tenant where
  propertyId : Option Nat
  unitId : Option Nat
  startingDate : Option HDate
  endingDate : Option HDate
  monthlyRent : ℚ
  rentChanges : List RentChange
  tenantHistory : List HistEntry
  rentHistory : List Payment
  electricityPerUnit : Option ℚ
  startingUnit : Option ℚ
  currentUnit : Option ℚ
deriving DecidableEq, Repr

/-- Inserts an element into an already sorted list after every element
that compares less-or-equal to it. -/
def insertSorted (le : α → α → Bool) (x : α) : List α → List α
  | [] => [x]
  | y :: ys => if le y x then y :: insertSorted le x ys else x :: y :: ys

/-- Stable ascending sort by a total comparison, processing elements in
their original order; this models Array.prototype.sort (stable in every
modern engine) with a subtraction comparator. -/
def stableSortBy (le : α → α → Bool) (l : List α) : List α :=
  l.foldl (fun acc x => insertSorted le x acc) []

/-- Rent changes sorted ascending by effectiveFrom, as both route files do
with Array.prototype.sort on the date values. -/
def sortChanges (l : List RentChange) : List RentChange :=
  stableSortBy (fun a b => decide (HDate.le a.effectiveFrom b.effectiveFrom)) l

/-- Embeds getRentForMonth from both route files: starting from the first
change's amount, scan the (sorted) changes, updating the accumulator while
the change is effective on or before the first day of the target month and
stopping at the first change that is not. -/
def getRentForMonthGo (year month : Nat) : List RentChange → ℚ → ℚ
  | [], acc => acc
  | c :: rest, acc =>
      if HDate.le c.effectiveFrom ⟨year, month, 1⟩ then
        getRentForMonthGo year month rest c.amount
      else acc

/-- Embeds getRentForMonth (identical text in both route files): the rent
applicable to the given 0-based month. -/
def getRentForMonth (year month : Nat) (rentChanges : List RentChange)
    (defaultRent : ℚ) : ℚ :=
  match rentChanges with
  | [] => defaultRent
  | c0 :: _ => getRentForMonthGo year month rentChanges c0.amount

/-- Embeds the body of the month-by-month expected-rent loop, which appears
verbatim in both route files (with periodStart and periodEnd named start
and effectiveEnd in the tenants route): the rent billed for the month with
index ym against the occupancy interval from periodStart to periodEnd,
evaluated at currentDate. -/
def monthExpected (ym : Nat) (periodStart periodEnd currentDate : HDate)
    (rentChanges : List RentChange) (monthlyRent : ℚ) : ℚ :=
  let monthRent := getRentForMonth (ym / 12) (ym % 12) rentChanges monthlyRent
  let monthStart := ymDate ym 1
  let monthEnd := ymDate ym (monthLen ym)
  let actualStart := if HDate.lt monthStart periodStart then periodStart else monthStart
  let actualEnd := if HDate.lt periodEnd monthEnd then periodEnd else monthEnd
  let finalEnd := if HDate.lt currentDate actualEnd then currentDate else actualEnd
  let dim : Int := monthLen ym
  let startDay : Int := actualStart.day
  let endDay : Int := finalEnd.day
  let daysOccupied : Int :=
    if actualStart.month = finalEnd.month ∧ actualStart.year = finalEnd.year then
      endDay - startDay + 1
    else if ym % 12 = periodStart.month ∧ ym / 12 = periodStart.year then
      dim - startDay + 1
    else if ym % 12 = finalEnd.month ∧ ym / 12 = finalEnd.year then
      endDay
    else dim
  if dim ≤ daysOccupied then monthRent
  else if 16 ≤ daysOccupied then monthRent
  else if 1 ≤ daysOccupied then monthRent / 2
  else 0

/-- Embeds the month loop of both route files: starting from the first day
of the month of ym, accumulate monthExpected while the first of the month
is on or before both periodEnd and currentDate. The fuel argument bounds
the recursion and is chosen large enough never to be exhausted. -/
def expectedLoop (fuel : Nat) (ym : Nat) (periodStart periodEnd currentDate : HDate)
    (rentChanges : List RentChange) (monthlyRent : ℚ) : ℚ :=
  match fuel with
  | 0 => 0
  | fuel + 1 =>
      if HDate.le (ymDate ym 1) periodEnd ∧ HDate.le (ymDate ym 1) currentDate then
        monthExpected ym periodStart periodEnd currentDate rentChanges monthlyRent +
          expectedLoop fuel (ym + 1) periodStart periodEnd currentDate rentChanges monthlyRent
      else 0

/-- Total expected rent for an occupancy interval: the month loop of both
route files, started at the first of the month of periodStart. -/
def expectedRentForRange (periodStart periodEnd currentDate : HDate)
    (rentChanges : List RentChange) (monthlyRent : ℚ) : ℚ :=
  expectedLoop (periodEnd.toYM + currentDate.toYM + 2) periodStart.toYM
    periodStart periodEnd currentDate rentChanges monthlyRent

/-- Electricity cost computed by both route files: the meter delta times
the per-unit cost, when all three fields are present and the current
reading is at least the starting one, else zero. -/
def elecCost (t : Tenant) : ℚ :=
  match t.electricityPerUnit, t.startingUnit, t.currentUnit with
  | some e, some s, some c => if s ≤ c then (c - s) * e else 0
  | _, _, _ => 0

namespace Tenants

/-- The record returned by the single-tenant billing computation in the
tenants route file. -/
structure TenantBilling where
  status : String
  due : ℚ
  overpaid : ℚ
  dueAmountDate : Option HDate
  totalPaid : ℚ
  totalExpectedRent : ℚ
  totalElectricityCost : ℚ
  rentDue : ℚ
  electricityDue : ℚ
  rentOverpaid : ℚ
  electricityOverpaid : ℚ
  totalRentPaid : ℚ
  totalElectricityPaid : ℚ
deriving DecidableEq, Repr

/-- Index of the last history entry carrying a property or unit
assignment, found by the backward scan of the tenants route. -/
def lastAssignmentIdx (l : List HistEntry) : Option Nat :=
  (List.range l.length).reverse.find? fun i =>
    match l[i]? with
    | some h => h.propertyId.isSome || h.unitId.isSome
    | none => false

/-- The end date inferred from the history entry that nulled out the
assignment: present when the entry right after the last assignment entry
has neither property nor unit. -/
def inferredEnd (l : List HistEntry) : Option HDate :=
  if 0 < l.length then
    match lastAssignmentIdx l with
    | some i =>
        if i < l.length - 1 then
          match l[i + 1]? with
          | some u =>
              if u.propertyId = none ∧ u.unitId = none then some u.updatedAt
              else none
          | none => none
        else none
    | none => none
  else none

/-- The all-zero record returned on the two early-return paths, with the
given status. -/
def emptyBilling (st : String) : TenantBilling :=
  ⟨st, 0, 0, none, 0, 0, 0, 0, 0, 0, 0, 0, 0⟩

/-- The main branch of the tenants-route computation, reached once the two
early returns have been passed; start is the tenant's starting date. -/
def mainBilling (t : Tenant) (start currentDate : HDate) : TenantBilling :=
  let actualEndDate : Option HDate :=
    match t.endingDate with
    | some e => some e
    | none => inferredEnd t.tenantHistory
  let effectiveEnd := actualEndDate.getD currentDate
  let rentChanges := sortChanges t.rentChanges
  let totalExpectedRent :=
    expectedRentForRange start effectiveEnd currentDate rentChanges t.monthlyRent
  let totalElectricityCost := elecCost t
  let totalRentPaid :=
    ((t.rentHistory.filter fun rh =>
        decide (rh.rentType = some "flat_rent" ∨ rh.rentType = none)).map
      (·.amount)).sum
  let totalElectricityPaid :=
    ((t.rentHistory.filter fun rh =>
        decide (rh.rentType = some "electricity")).map (·.amount)).sum
  let totalPaid := totalRentPaid + totalElectricityPaid
  let rentBalance := totalExpectedRent - totalRentPaid
  let electricityBalance := totalElectricityCost - totalElectricityPaid
  let rentDue := if 0 < rentBalance then rentBalance else 0
  let rentOverpaid := if rentBalance < 0 then -rentBalance else 0
  let electricityDue := if 0 < electricityBalance then electricityBalance else 0
  let electricityOverpaid := if electricityBalance < 0 then -electricityBalance else 0
  let totalExpected := totalExpectedRent + totalElectricityCost
  let tenantBalance := totalExpected - totalPaid
  let due := if 0 < tenantBalance then tenantBalance else 0
  let overpaid := if tenantBalance < 0 then -tenantBalance else 0
  let status :=
    if t.unitId = none ∧ t.startingDate.isSome then "Unassigned"
    else if t.endingDate.isSome ∨ actualEndDate.isSome then "Inactive"
    else if 0 < due then "Due" else "Active"
  let dueAmountDate := if 0 < due then some currentDate else none
  ⟨status, due, overpaid, dueAmountDate, totalPaid, totalExpectedRent,
    totalElectricityCost, rentDue, electricityDue, rentOverpaid,
    electricityOverpaid, totalRentPaid, totalElectricityPaid⟩

/-- Embeds calculateTenantStatusAndDue from the tenants route file
(single-tenant detail computation). -/
def calculateTenantStatusAndDue (t : Tenant) (currentDate : HDate) : TenantBilling :=
  if t.unitId = none ∧ t.startingDate = none then emptyBilling "Unassigned"
  else
    match t.startingDate with
    | none => emptyBilling "Due"
    | some start => mainBilling t start currentDate

end Tenants

namespace Properties

/-- A derived occupancy period: the property occupied and the interval. -/
structure Period where
  propertyId : Option Nat
  startDate : HDate
  endDate : HDate
deriving DecidableEq, Repr

/-- One element of the array returned by the multi-period computation in
the properties route file. -/
structure PeriodResult where
  propertyId : Option Nat
  status : String
  due : ℚ
  overpaid : ℚ
  dueAmountDate : Option HDate
  totalPaid : ℚ
  totalExpectedRent : ℚ
  totalElectricityCost : ℚ
deriving DecidableEq, Repr

/-- Whether some history entry carries a property assignment. -/
def hasValidHistory (t : Tenant) : Bool :=
  t.tenantHistory.any (·.propertyId.isSome)

/-- History entries with a property assignment, sorted ascending by
updatedAt (stable, as Array.prototype.sort on timestamps). -/
def sortedHistory (t : Tenant) : List HistEntry :=
  stableSortBy (fun a b => decide (HDate.le a.updatedAt b.updatedAt))
    (t.tenantHistory.filter (·.propertyId.isSome))

/-- Embeds the period-building loop over the filtered, sorted history: each
entry opens a period at its updatedAt; the period ends at the next entry's
updatedAt, or for the last entry at the global end when the tenant is still
in that property, at the unassignment entry found in the raw history when
the tenant has no current property, and at its own start when the tenant
moved elsewhere. Periods of negative duration are dropped. -/
def rawPeriods (t : Tenant) (history : List HistEntry) (globalEnd : HDate) :
    List Period :=
  history.enum.filterMap fun p =>
    let i := p.1
    let h := p.2
    let periodStart := h.updatedAt
    let periodEnd :=
      match history[i + 1]? with
      | some next => next.updatedAt
      | none =>
          match t.propertyId with
          | some pid =>
              if h.propertyId = some pid then globalEnd else periodStart
          | none =>
              match t.tenantHistory.enum.find? fun q =>
                  decide (i < q.1) && decide (q.2.propertyId = none) with
              | some q => q.2.updatedAt
              | none => globalEnd
    if HDate.le periodStart periodEnd then
      some ⟨h.propertyId, periodStart, periodEnd⟩
    else none

/-- One step of the merge pass: extend the last accumulated period when the
incoming one is for the same (present) property and starts no later than
the last one ends, else append it. -/
def mergeStep (merged : List Period) (current : Period) : List Period :=
  match merged.getLast? with
  | some last =>
      if last.propertyId ≠ none ∧ current.propertyId ≠ none ∧
          last.propertyId = current.propertyId ∧
          HDate.le current.startDate last.endDate then
        merged.dropLast ++ [{ last with endDate := HDate.max last.endDate current.endDate }]
      else merged ++ [current]
  | none => [current]

/-- The merge pass, run only when there is more than one period. -/
def mergePeriods (ps : List Period) : List Period :=
  if 1 < ps.length then ps.foldl mergeStep [] else ps

/-- Appends the synthetic period for the current property when it differs
from the last history entry's property. -/
def addCurrentProperty (t : Tenant) (history : List HistEntry)
    (globalEnd : HDate) (ps : List Period) : List Period :=
  match history.getLast?, t.propertyId with
  | some lastH, some pid =>
      if lastH.propertyId ≠ some pid then
        ps ++ [⟨some pid, lastH.updatedAt, globalEnd⟩]
      else ps
  | _, _ => ps

/-- Embeds the whole period construction: with no (valid) history a single
period under the current property spans start to globalEnd; otherwise the
periods come from the history, merged, plus the synthetic current one. -/
def buildPeriods (t : Tenant) (start globalEnd : HDate) : List Period :=
  let history := sortedHistory t
  if history.isEmpty then
    match t.propertyId with
    | some pid => [⟨some pid, start, globalEnd⟩]
    | none => []
  else
    addCurrentProperty t history globalEnd
      (mergePeriods (rawPeriods t history globalEnd))

/-- Expected rent of one period: zero when the period starts after the
evaluation instant (the continue in the source), else the month loop. -/
def expectedForPeriod (currentDate : HDate) (rentChanges : List RentChange)
    (monthlyRent : ℚ) (p : Period) : ℚ :=
  if HDate.lt currentDate p.startDate then 0
  else expectedRentForRange p.startDate p.endDate currentDate rentChanges monthlyRent

/-- The per-period result records as initialised and then filled with each
period's expected rent. -/
def baseResults (t : Tenant) (currentDate : HDate) (periods : List Period) :
    List PeriodResult :=
  let rentChanges := sortChanges t.rentChanges
  periods.map fun p =>
    ⟨p.propertyId, "Inactive", 0, 0, none, 0,
      expectedForPeriod currentDate rentChanges t.monthlyRent p, 0⟩

/-- Adds the electricity cost to the first result for the given property
(the findIndex of the source). -/
def addElecAux (pid : Nat) (cost : ℚ) : List PeriodResult → List PeriodResult
  | [] => []
  | r :: rest =>
      if r.propertyId = some pid then
        { r with totalElectricityCost := r.totalElectricityCost + cost } :: rest
      else r :: addElecAux pid cost rest

/-- Embeds the electricity attribution: the cost goes to the result of the
tenant's current property, when there is one. -/
def addElec (t : Tenant) (cost : ℚ) (rs : List PeriodResult) : List PeriodResult :=
  match t.propertyId with
  | some pid => if 0 < rs.length then addElecAux pid cost rs else rs
  | none => rs

/-- Embeds the FIFO distribution loop: walk results in order, crediting
each result's combined expected total from the remaining pool; returns the
updated results and the remaining pool. -/
def allocAux (remaining : ℚ) : List PeriodResult → List PeriodResult × ℚ
  | [] => ([], remaining)
  | r :: rest =>
      let totalExpected := r.totalExpectedRent + r.totalElectricityCost
      let paid := if totalExpected ≤ remaining then totalExpected else remaining
      let rem := if totalExpected ≤ remaining then remaining - totalExpected else 0
      let balance := totalExpected - paid
      let r2 := { r with
        totalPaid := paid,
        due := if 0 < balance then balance else 0,
        overpaid := (0 : ℚ) }
      let out := allocAux rem rest
      (r2 :: out.1, out.2)

/-- Records the leftover pool on the most recent (last) result. -/
def addLeftoverLast (rem : ℚ) : List PeriodResult → List PeriodResult
  | [] => []
  | [r] => [{ r with overpaid := rem, totalPaid := r.totalPaid + rem }]
  | r :: rest => r :: addLeftoverLast rem rest

/-- The payment distribution of the source: FIFO credit, then any positive
leftover is recorded on the last result. -/
def distribute (pool : ℚ) (rs : List PeriodResult) : List PeriodResult :=
  let out := allocAux pool rs
  if 0 < out.2 ∧ out.1 ≠ [] then addLeftoverLast out.2 out.1 else out.1

/-- Embeds the per-period status assignment. -/
def setStatus (t : Tenant) (r : PeriodResult) : PeriodResult :=
  if t.propertyId ≠ none ∧ r.propertyId ≠ none ∧ r.propertyId = t.propertyId then
    { r with status :=
        if t.endingDate.isSome then "Inactive"
        else if 0 < r.due then "Due"
        else "Active" }
  else { r with status := "Inactive" }

/-- Embeds the due-date stamping: results with a positive due get the
evaluation instant. -/
def setDueDate (currentDate : HDate) (r : PeriodResult) : PeriodResult :=
  if 0 < r.due then { r with dueAmountDate := some currentDate } else r

/-- The per-period results right before the payment distribution: periods
built, expected rents filled in and the electricity cost attributed. -/
def preAllocResults (t : Tenant) (start currentDate : HDate) : List PeriodResult :=
  let globalEnd := t.endingDate.getD currentDate
  let periods := buildPeriods t start globalEnd
  addElec t (elecCost t) (baseResults t currentDate periods)

/-- The main branch of the properties-route computation, reached once the
two early returns have been passed. -/
def mainResults (t : Tenant) (start currentDate : HDate) : List PeriodResult :=
  let pool := (t.rentHistory.map (·.amount)).sum
  let allocated := distribute pool (preAllocResults t start currentDate)
  (allocated.map (setStatus t)).map (setDueDate currentDate)

/-- Embeds calculateTenantStatusAndDue from the properties route file (the
multi-period, per-property computation). -/
def calculateTenantStatusAndDue (t : Tenant) (currentDate : HDate) :
    List PeriodResult :=
  if t.propertyId = none ∧ hasValidHistory t = false then
    [⟨none, "Unassigned", 0, 0, none, 0, 0, 0⟩]
  else
    match t.startingDate with
    | none => [⟨t.propertyId, "Due", 0, 0, none, 0, 0, 0⟩]
    | some start => mainResults t start currentDate

end Properties

/-! Specification-side definitions, written from the specification's words,
to be compared with the embedded code, plus the concrete snapshots used by
witnesses and counterexamples. -/

/-- A date that actually exists on the calendar: the month index is in
range and the day of month is in range for that month. Every JavaScript
Date denotes such a date. -/
def HDate.Wellformed (d : HDate) : Prop :=
  d.month < 12 ∧ 1 ≤ d.day ∧ d.day ≤ daysInMonth d.year d.month

instance (d : HDate) : Decidable (HDate.Wellformed d) := by
  unfold HDate.Wellformed; infer_instance

/-- Specification-side count of the days of the month with index ym that
lie inside the occupancy interval from periodStart to periodEnd and are not
after the evaluation instant: the inclusive number of days of overlap. -/
def overlapDays (ym : Nat) (periodStart periodEnd currentDate : HDate) : Nat :=
  ((Finset.Icc 1 (monthLen ym)).filter fun d =>
    HDate.le periodStart (ymDate ym d) ∧ HDate.le (ymDate ym d) periodEnd ∧
      HDate.le (ymDate ym d) currentDate).card

/-- Specification-side proration rule: full rent at or above the month
length or at 16 or more days, half rent from 1 to 15 days, zero otherwise. -/
def prorationRule (daysOccupied dim : Nat) (fullRent : ℚ) : ℚ :=
  if dim ≤ daysOccupied then fullRent
  else if 16 ≤ daysOccupied then fullRent
  else if 1 ≤ daysOccupied then fullRent / 2
  else 0

/-- Specification-side description of the rent-schedule resolver: fallback
on the empty list, else the amount of the last change effective on or
before the first day of the target month, else the first change's amount. -/
def rentResolverSpec (year month : Nat) (changes : List RentChange) (fallback : ℚ) : ℚ :=
  match changes with
  | [] => fallback
  | c0 :: _ =>
      match (changes.filter fun c =>
          decide (HDate.le c.effectiveFrom ⟨year, month, 1⟩)).getLast? with
      | some c => c.amount
      | none => c0.amount

/-- The combined expected total of one period result, as formed inside the
distribution loop. -/
def Properties.expectedTotal (r : Properties.PeriodResult) : ℚ :=
  r.totalExpectedRent + r.totalElectricityCost

/-- Specification-side FIFO credit: each expected total receives the
minimum of the remaining pool and itself, in order. -/
def fifoCredits (pool : ℚ) : List ℚ → List ℚ
  | [] => []
  | e :: es => min pool e :: fifoCredits (pool - min pool e) es

/-- Specification-side remainder of the pool after the FIFO credit. -/
def fifoRemainder (pool : ℚ) : List ℚ → ℚ
  | [] => pool
  | e :: es => fifoRemainder (pool - min pool e) es

/-- Adds an amount to the last element of a list. -/
def bumpLast (x : ℚ) : List ℚ → List ℚ
  | [] => []
  | [a] => [a + x]
  | a :: rest => a :: bumpLast x rest

/-- The per-period overpaid amounts the specification predicts: zero
everywhere except a positive remainder on the most recent period. -/
def overpaidSpec (rem : ℚ) (n : Nat) : List ℚ :=
  if 0 < rem ∧ n ≠ 0 then List.replicate (n - 1) 0 ++ [rem]
  else List.replicate n 0

/-- The snapshot with one more recorded payment appended. -/
def appendPayment (t : Tenant) (p : Payment) : Tenant :=
  { t with rentHistory := t.rentHistory ++ [p] }

/-- The payment kinds the application itself ever records: the two
validated variants plus the legacy absent tag. -/
def knownKind (p : Payment) : Prop :=
  p.rentType = none ∨ p.rentType = some "flat_rent" ∨ p.rentType = some "electricity"

instance (p : Payment) : Decidable (knownKind p) := by
  unfold knownKind; infer_instance

/-- Scenario A of the specification: tenancy from 2024-01-01 at rent
10000, no changes, no payments, no ending date. -/
def scenarioATenant : Tenant :=
  ⟨some 1, some 1, some ⟨2024, 0, 1⟩, none, 10000, [], [], [], none, none, none⟩

/-- Scenario C of the specification: moved from property 1 to property 2
on 2024-04-10, rent 3000, a single rent payment of 12000. -/
def scenarioCTenant : Tenant :=
  ⟨some 2, some 5, some ⟨2024, 0, 1⟩, none, 3000, [],
    [⟨some 1, some 4, ⟨2024, 0, 1⟩⟩, ⟨some 2, some 5, ⟨2024, 3, 10⟩⟩],
    [⟨12000, some "flat_rent", none⟩], none, none, none⟩

/-- A tenant owing one full rent month and nothing for electricity, with a
single recorded electricity payment of 3000. -/
def elecPoolTenant : Tenant :=
  ⟨some 1, some 1, some ⟨2024, 0, 1⟩, none, 10000, [], [],
    [⟨3000, some "electricity", none⟩], none, none, none⟩

/-- The same tenant with no payments at all. -/
def elecPoolTenantNoPay : Tenant :=
  ⟨some 1, some 1, some ⟨2024, 0, 1⟩, none, 10000, [], [], [], none, none, none⟩

/-- A tenant whose history places them in property 1 from 2024-01-10 while
the current property is 2: the mid-history move that makes the two billing
computations disagree. -/
def midMoveTenant : Tenant :=
  ⟨some 2, some 5, some ⟨2024, 0, 1⟩, none, 10000, [],
    [⟨some 1, some 4, ⟨2024, 0, 10⟩⟩], [], none, none, none⟩

/-- A tenant with an explicit ending date, no current unit, zero rent and
no payments: total due is zero yet the single-tenant computation reports
Unassigned. -/
def endedNoUnitTenant : Tenant :=
  ⟨none, none, some ⟨2024, 0, 1⟩, some ⟨2024, 1, 1⟩, 0, [], [], [], none, none, none⟩

/-- A tenant with an explicit ending date who still has a unit and a
property assigned. -/
def endedWithUnitTenant : Tenant :=
  ⟨some 1, some 1, some ⟨2024, 0, 1⟩, some ⟨2024, 1, 1⟩, 1000, [], [], [],
    none, none, none⟩

/-! Helper lemmas about the date order. -/

namespace HDate

theorem le_refl (a : HDate) : le a a := by unfold le; omega

theorem le_trans {a b c : HDate} (h1 : le a b) (h2 : le b c) : le a c := by
  unfold le at *; omega

theorem le_of_lt {a b : HDate} (h : lt a b) : le a b := by
  unfold le lt at *; omega

theorem not_lt_iff_le {a b : HDate} : ¬ lt a b ↔ le b a := by
  unfold le lt; omega

theorem le_total (a b : HDate) : le a b ∨ le b a := by unfold le; omega

theorem le_same_month {y m a b : Nat} : le ⟨y, m, a⟩ ⟨y, m, b⟩ ↔ a ≤ b := by
  simp [le]

theorem between_month {y m d1 d2 : Nat} {x : HDate} (h1 : le ⟨y, m, d1⟩ x)
    (h2 : le x ⟨y, m, d2⟩) : x.year = y ∧ x.month = m ∧ d1 ≤ x.day ∧ x.day ≤ d2 := by
  obtain ⟨xy, xm, xd⟩ := x
  simp [le] at *
  omega

theorem le_ifmin {x a b : HDate} :
    le x (if lt b a then b else a) ↔ le x a ∧ le x b := by
  split <;> unfold le lt at * <;> omega

end HDate

/-- Between 28 and 31 days in every month. -/
theorem daysInMonth_bounds (y m : Nat) :
    28 ≤ daysInMonth y m ∧ daysInMonth y m ≤ 31 := by
  unfold daysInMonth
  split
  · split <;> omega
  · split <;> omega

/-- The month index of the date built from a month index is that index. -/
theorem toYM_ymDate (ym d : Nat) : (ymDate ym d).toYM = ym := by
  simp [ymDate, HDate.toYM]
  omega

/-- C7. For every tenant snapshot and the same fixed evaluation instant,
two invocations of either billing computation yield identical output
records: both engines are pure functions of the snapshot and the instant. -/
theorem c7_deterministic (t : Tenant) (currentDate : HDate) :
    Tenants.calculateTenantStatusAndDue t currentDate =
        Tenants.calculateTenantStatusAndDue t currentDate ∧
      Properties.calculateTenantStatusAndDue t currentDate =
        Properties.calculateTenantStatusAndDue t currentDate :=
  ⟨rfl, rfl⟩

/-- C2, counterexample. In Scenario A (tenancy from 2024-01-01 at rent
10000, nothing else, evaluated on 2024-03-01) neither computation returns
the 20000 the claim states: the single elapsed day of March is billed as a
half month by the proration rule. -/
theorem c2_scenarioA_counterexample :
    (Tenants.calculateTenantStatusAndDue scenarioATenant ⟨2024, 2, 1⟩).totalExpectedRent ≠ 20000 ∧
      ((Properties.calculateTenantStatusAndDue scenarioATenant ⟨2024, 2, 1⟩).map
        (·.totalExpectedRent)).sum ≠ 20000 := by
  constructor <;> decide

/-- C2, amended. In Scenario A both computations return a total expected
rent of 25000: January and February are billed in full and the one elapsed
day of March is billed as a half month (5000). -/
theorem c2_scenarioA_amended :
    (Tenants.calculateTenantStatusAndDue scenarioATenant ⟨2024, 2, 1⟩).totalExpectedRent = 25000 ∧
      ((Properties.calculateTenantStatusAndDue scenarioATenant ⟨2024, 2, 1⟩).map
        (·.totalExpectedRent)).sum = 25000 := by
  constructor <;> decide

/-- The scanning loop of getRentForMonth, on a sorted list, returns the
amount of the last qualifying change, or its accumulator when none
qualifies. -/
theorem getRentForMonthGo_spec (y m : Nat) (l : List RentChange) :
    ∀ acc : ℚ,
      l.Pairwise (fun a b => HDate.le a.effectiveFrom b.effectiveFrom) →
      getRentForMonthGo y m l acc =
        match (l.filter fun c => decide (HDate.le c.effectiveFrom ⟨y, m, 1⟩)).getLast? with
        | some c => c.amount
        | none => acc := by
  induction l with
  | nil => intro acc _; simp [getRentForMonthGo]
  | cons c rest ih =>
      intro acc hp
      rw [List.pairwise_cons] at hp
      obtain ⟨hc, hrest⟩ := hp
      by_cases h : HDate.le c.effectiveFrom ⟨y, m, 1⟩
      · rw [getRentForMonthGo, if_pos h, ih c.amount hrest]
        cases hf : rest.filter fun x => decide (HDate.le x.effectiveFrom ⟨y, m, 1⟩) with
        | nil => simp [List.filter_cons, h, hf]
        | cons d ds =>
            simp only [List.filter_cons, h, decide_eq_true_eq, if_pos, hf]
            cases hg : (d :: ds).getLast? with
            | none => exact absurd (List.getLast?_eq_none_iff.mp hg) (by simp)
            | some e => simp [List.getLast?_cons_cons, hg]
      · have hall : (c :: rest).filter
            (fun x => decide (HDate.le x.effectiveFrom ⟨y, m, 1⟩)) = [] := by
          rw [List.filter_eq_nil_iff]
          intro x hx
          simp only [decide_eq_true_eq]
          rcases List.mem_cons.mp hx with hx0 | hxr
          · rw [hx0]; exact h
          · exact fun hle => h (HDate.le_trans (hc x hxr) hle)
        rw [getRentForMonthGo, if_neg h, hall]
        rfl

/-- C3. For every target month and every list of rent changes sorted
ascending by effectiveFrom, getRentForMonth returns the fallback when the
list is empty, else the amount of the last change effective on or before
the first day of the target month, and the first change's amount when no
change qualifies. -/
theorem c3_rent_resolver (y m : Nat) (changes : List RentChange) (fallback : ℚ)
    (hs : changes.Pairwise fun a b => HDate.le a.effectiveFrom b.effectiveFrom) :
    getRentForMonth y m changes fallback = rentResolverSpec y m changes fallback := by
  cases changes with
  | nil => rfl
  | cons c0 rest =>
      simpa [getRentForMonth, rentResolverSpec] using
        getRentForMonthGo_spec y m (c0 :: rest) c0.amount hs

/-- C3, witness. The resolver agrees with its specification on the two
sorted changes of Scenario B, where February resolves to 1000. -/
theorem c3_rent_resolver_witness :
    getRentForMonth 2024 1 [⟨1000, ⟨2024, 0, 1⟩⟩, ⟨1500, ⟨2024, 2, 1⟩⟩] 0 =
        rentResolverSpec 2024 1 [⟨1000, ⟨2024, 0, 1⟩⟩, ⟨1500, ⟨2024, 2, 1⟩⟩] 0 ∧
      getRentForMonth 2024 1 [⟨1000, ⟨2024, 0, 1⟩⟩, ⟨1500, ⟨2024, 2, 1⟩⟩] 0 = 1000 :=
  ⟨c3_rent_resolver 2024 1 _ 0 (by decide), by decide⟩

/-! Helper lemmas about the FIFO payment distribution. -/

/-- The minimum of the pool and the expected amount, written the way the
distribution loop branches. -/
theorem min_pool_eq (pool e : ℚ) : min pool e = if e ≤ pool then e else pool := by
  by_cases h : e ≤ pool
  · simp [h, min_eq_right h]
  · simp [h, min_eq_left (le_of_not_le h)]

/-- The pool left after one credit, written the way the loop branches. -/
theorem sub_min_eq (pool e : ℚ) :
    pool - min pool e = if e ≤ pool then pool - e else 0 := by
  by_cases h : e ≤ pool
  · simp [min_pool_eq, h]
  · simp [min_pool_eq, h]

/-- Clamping at zero is a maximum. -/
theorem ite_pos_eq_max (b : ℚ) : (if 0 < b then b else 0) = max 0 b := by
  by_cases h : 0 < b
  · simp [h, max_eq_right (le_of_lt h)]
  · simp [h, max_eq_left (le_of_not_lt h)]

namespace Properties

theorem allocAux_fst_map_totalPaid (rs : List PeriodResult) :
    ∀ pool : ℚ, (allocAux pool rs).1.map (·.totalPaid) =
      fifoCredits pool (rs.map expectedTotal) := by
  induction rs with
  | nil => intro pool; simp [allocAux, fifoCredits]
  | cons r rest ih =>
      intro pool
      simp only [allocAux, List.map_cons, fifoCredits, min_pool_eq, sub_min_eq,
        expectedTotal]
      split_ifs with h <;> simp [ih]

theorem allocAux_snd (rs : List PeriodResult) :
    ∀ pool : ℚ, (allocAux pool rs).2 = fifoRemainder pool (rs.map expectedTotal) := by
  induction rs with
  | nil => intro pool; simp [allocAux, fifoRemainder]
  | cons r rest ih =>
      intro pool
      simp only [allocAux, List.map_cons, fifoRemainder, min_pool_eq, sub_min_eq,
        expectedTotal]
      split_ifs with h <;> simp [ih]

theorem allocAux_fst_map_due (rs : List PeriodResult) :
    ∀ pool : ℚ, (allocAux pool rs).1.map (·.due) =
      ((rs.map expectedTotal).zip (fifoCredits pool (rs.map expectedTotal))).map
        (fun q => max 0 (q.1 - q.2)) := by
  induction rs with
  | nil => intro pool; simp [allocAux, fifoCredits]
  | cons r rest ih =>
      intro pool
      simp only [allocAux, List.map_cons, fifoCredits, min_pool_eq, sub_min_eq,
        expectedTotal, List.zip_cons_cons, ite_pos_eq_max]
      split_ifs with h
      · simp [ih, h]
      · simp [ih, h]

theorem allocAux_fst_map_overpaid (rs : List PeriodResult) :
    ∀ pool : ℚ, (allocAux pool rs).1.map (·.overpaid) =
      List.replicate rs.length 0 := by
  induction rs with
  | nil => intro pool; simp [allocAux]
  | cons r rest ih =>
      intro pool
      simp [allocAux, List.replicate_succ, ih]

theorem allocAux_fst_map_expRent (rs : List PeriodResult) :
    ∀ pool : ℚ, (allocAux pool rs).1.map (·.totalExpectedRent) =
      rs.map (·.totalExpectedRent) := by
  induction rs with
  | nil => intro pool; simp [allocAux]
  | cons r rest ih => intro pool; simp [allocAux, ih]

theorem allocAux_fst_length (rs : List PeriodResult) (pool : ℚ) :
    (allocAux pool rs).1.length = rs.length := by
  induction rs generalizing pool with
  | nil => simp [allocAux]
  | cons r rest ih => simp [allocAux, ih]

end Properties

/-- Credits plus remainder conserve the pool. -/
theorem fifoCredits_sum_add_remainder (es : List ℚ) :
    ∀ pool : ℚ, (fifoCredits pool es).sum + fifoRemainder pool es = pool := by
  induction es with
  | nil => intro pool; simp [fifoCredits, fifoRemainder]
  | cons e es ih =>
      intro pool
      simp only [fifoCredits, fifoRemainder, List.sum_cons]
      have := ih (pool - min pool e)
      linarith

/-- The remainder of a nonnegative pool stays nonnegative. -/
theorem fifoRemainder_nonneg (es : List ℚ) :
    ∀ pool : ℚ, 0 ≤ pool → 0 ≤ fifoRemainder pool es := by
  induction es with
  | nil => intro pool h; simpa [fifoRemainder] using h
  | cons e es ih =>
      intro pool h
      exact ih _ (by simpa using sub_nonneg.mpr (min_le_left pool e))

/-- The remainder grows with the pool. -/
theorem fifoRemainder_mono (es : List ℚ) :
    ∀ {p q : ℚ}, p ≤ q → fifoRemainder p es ≤ fifoRemainder q es := by
  induction es with
  | nil => intro p q h; simpa [fifoRemainder] using h
  | cons e es ih =>
      intro p q h
      refine ih ?_
      rw [sub_min_eq, sub_min_eq]
      split_ifs with h1 h2 <;> linarith

/-- The total clamped shortfall shrinks as the pool grows. -/
theorem fifo_sumDue_antitone (es : List ℚ) :
    ∀ {p q : ℚ}, p ≤ q →
      ((es.zip (fifoCredits q es)).map (fun x => max 0 (x.1 - x.2))).sum ≤
        ((es.zip (fifoCredits p es)).map (fun x => max 0 (x.1 - x.2))).sum := by
  induction es with
  | nil => intro p q _; simp [fifoCredits]
  | cons e es ih =>
      intro p q h
      simp only [fifoCredits, List.zip_cons_cons, List.map_cons, List.sum_cons]
      have hmin : min p e ≤ min q e := min_le_min h (le_refl e)
      have hhead : max 0 (e - min q e) ≤ max 0 (e - min p e) :=
        max_le_max (le_refl 0) (by linarith)
      have htail := ih (p := p - min p e) (q := q - min q e)
        (by rw [sub_min_eq, sub_min_eq]; split_ifs with h1 h2 <;> linarith)
      linarith

/-- Sum of a list after adding to its last element. -/
theorem bumpLast_sum (x : ℚ) (l : List ℚ) (h : l ≠ []) :
    (bumpLast x l).sum = l.sum + x := by
  induction l with
  | nil => exact absurd rfl h
  | cons a rest ih =>
      cases rest with
      | nil => simp [bumpLast]
      | cons b s =>
          have hne : b :: s ≠ [] := by simp
          have key := ih hne
          rw [bumpLast]
          simp only [List.sum_cons] at key ⊢
          rw [key]
          ring
          exact hne

/-- The sum of the specified overpaid layout. -/
theorem overpaidSpec_sum (rem : ℚ) (n : Nat) :
    (overpaidSpec rem n).sum = if 0 < rem ∧ n ≠ 0 then rem else 0 := by
  unfold overpaidSpec
  split_ifs with h
  · simp
  · simp

namespace Properties

theorem addLeftoverLast_map_totalPaid (x : ℚ) (l : List PeriodResult) :
    (addLeftoverLast x l).map (·.totalPaid) = bumpLast x (l.map (·.totalPaid)) := by
  induction l with
  | nil => simp [addLeftoverLast, bumpLast]
  | cons r rest ih =>
      cases rest with
      | nil => simp [addLeftoverLast, bumpLast]
      | cons s t => simp only [addLeftoverLast, List.map_cons, bumpLast, ih]

theorem addLeftoverLast_map_due (x : ℚ) (l : List PeriodResult) :
    (addLeftoverLast x l).map (·.due) = l.map (·.due) := by
  induction l with
  | nil => simp [addLeftoverLast]
  | cons r rest ih =>
      cases rest with
      | nil => simp [addLeftoverLast]
      | cons s t => simp only [addLeftoverLast, List.map_cons, ih]

theorem addLeftoverLast_map_expRent (x : ℚ) (l : List PeriodResult) :
    (addLeftoverLast x l).map (·.totalExpectedRent) = l.map (·.totalExpectedRent) := by
  induction l with
  | nil => simp [addLeftoverLast]
  | cons r rest ih =>
      cases rest with
      | nil => simp [addLeftoverLast]
      | cons s t => simp only [addLeftoverLast, List.map_cons, ih]

theorem addLeftoverLast_map_overpaid (x : ℚ) (l : List PeriodResult)
    (hz : l.map (·.overpaid) = List.replicate l.length 0) (h : l ≠ []) :
    (addLeftoverLast x l).map (·.overpaid) =
      List.replicate (l.length - 1) 0 ++ [x] := by
  induction l with
  | nil => exact absurd rfl h
  | cons r rest ih =>
      cases rest with
      | nil => simp [addLeftoverLast]
      | cons s t =>
          simp only [List.map_cons, List.length_cons, List.replicate_succ] at hz
          obtain ⟨h0, hz⟩ := List.cons_eq_cons.mp hz
          have hne : s :: t ≠ [] := by simp
          have hz2 : List.map (fun u => u.overpaid) (s :: t) =
              List.replicate (s :: t).length 0 := by
            simp only [List.map_cons, List.length_cons, List.replicate_succ]
            exact hz
          have key := ih hz2 hne
          rw [addLeftoverLast]
          simp only [List.map_cons]
          rw [key]
          simp [h0, List.replicate_succ]
          exact hne

end Properties

namespace Properties

theorem allocAux_fst_eq_nil_iff (rs : List PeriodResult) (pool : ℚ) :
    (allocAux pool rs).1 = [] ↔ rs = [] := by
  constructor
  · intro h
    have := allocAux_fst_length rs pool
    rw [h] at this
    exact (List.length_eq_zero.mp this.symm)
  · intro h; subst h; rfl

theorem distribute_map_totalPaid (pool : ℚ) (rs : List PeriodResult) :
    (distribute pool rs).map (·.totalPaid) =
      (if 0 < fifoRemainder pool (rs.map expectedTotal) then
        bumpLast (fifoRemainder pool (rs.map expectedTotal))
          (fifoCredits pool (rs.map expectedTotal))
      else fifoCredits pool (rs.map expectedTotal)) := by
  cases rs with
  | nil =>
      simp [distribute, allocAux, fifoCredits, fifoRemainder, bumpLast]
  | cons r rest =>
      simp only [distribute]
      have hne : (allocAux pool (r :: rest)).1 ≠ [] := by
        rw [Ne, allocAux_fst_eq_nil_iff]; simp
      by_cases hrem : 0 < (allocAux pool (r :: rest)).2
      · rw [if_pos ⟨hrem, hne⟩, addLeftoverLast_map_totalPaid,
          allocAux_fst_map_totalPaid, allocAux_snd]
        rw [allocAux_snd] at hrem
        rw [if_pos hrem]
      · rw [if_neg (by tauto), allocAux_fst_map_totalPaid]
        rw [allocAux_snd] at hrem
        rw [if_neg hrem]

theorem distribute_map_due (pool : ℚ) (rs : List PeriodResult) :
    (distribute pool rs).map (·.due) =
      ((rs.map expectedTotal).zip (fifoCredits pool (rs.map expectedTotal))).map
        (fun q => max 0 (q.1 - q.2)) := by
  simp only [distribute]
  split_ifs with h
  · rw [addLeftoverLast_map_due, allocAux_fst_map_due]
  · rw [allocAux_fst_map_due]

theorem distribute_map_expRent (pool : ℚ) (rs : List PeriodResult) :
    (distribute pool rs).map (·.totalExpectedRent) = rs.map (·.totalExpectedRent) := by
  simp only [distribute]
  split_ifs with h
  · rw [addLeftoverLast_map_expRent, allocAux_fst_map_expRent]
  · rw [allocAux_fst_map_expRent]

theorem distribute_map_overpaid (pool : ℚ) (rs : List PeriodResult) :
    (distribute pool rs).map (·.overpaid) =
      overpaidSpec (fifoRemainder pool (rs.map expectedTotal)) rs.length := by
  simp only [distribute]
  split_ifs with h
  · obtain ⟨hpos, hne⟩ := h
    have hz : (allocAux pool rs).1.map (·.overpaid) =
        List.replicate (allocAux pool rs).1.length 0 := by
      rw [allocAux_fst_map_overpaid, allocAux_fst_length]
    rw [addLeftoverLast_map_overpaid _ _ hz hne, allocAux_fst_length, allocAux_snd]
    rw [allocAux_snd] at hpos
    have hlen : rs.length ≠ 0 := by
      intro h0
      exact hne ((allocAux_fst_eq_nil_iff rs pool).mpr (List.length_eq_zero.mp h0))
    rw [overpaidSpec, if_pos ⟨hpos, hlen⟩]
  · rw [allocAux_fst_map_overpaid, overpaidSpec]
    rw [if_neg]
    intro hc
    obtain ⟨hpos, hlen⟩ := hc
    refine h ⟨by rwa [allocAux_snd], ?_⟩
    rw [Ne, allocAux_fst_eq_nil_iff]
    intro h0
    exact hlen (by simp [h0])

theorem setStatus_due (t : Tenant) (r : PeriodResult) : (setStatus t r).due = r.due := by
  simp only [setStatus]; split_ifs <;> rfl

theorem setStatus_overpaid (t : Tenant) (r : PeriodResult) :
    (setStatus t r).overpaid = r.overpaid := by
  simp only [setStatus]; split_ifs <;> rfl

theorem setStatus_totalPaid (t : Tenant) (r : PeriodResult) :
    (setStatus t r).totalPaid = r.totalPaid := by
  simp only [setStatus]; split_ifs <;> rfl

theorem setStatus_expRent (t : Tenant) (r : PeriodResult) :
    (setStatus t r).totalExpectedRent = r.totalExpectedRent := by
  simp only [setStatus]; split_ifs <;> rfl

theorem setDueDate_due (c : HDate) (r : PeriodResult) : (setDueDate c r).due = r.due := by
  simp only [setDueDate]; split_ifs <;> rfl

theorem setDueDate_overpaid (c : HDate) (r : PeriodResult) :
    (setDueDate c r).overpaid = r.overpaid := by
  simp only [setDueDate]; split_ifs <;> rfl

theorem setDueDate_totalPaid (c : HDate) (r : PeriodResult) :
    (setDueDate c r).totalPaid = r.totalPaid := by
  simp only [setDueDate]; split_ifs <;> rfl

theorem setDueDate_expRent (c : HDate) (r : PeriodResult) :
    (setDueDate c r).totalExpectedRent = r.totalExpectedRent := by
  simp only [setDueDate]; split_ifs <;> rfl

theorem phases_map_field (f : PeriodResult → ℚ) (t : Tenant) (c : HDate)
    (hs : ∀ r, f (setStatus t r) = f r) (hd : ∀ r, f (setDueDate c r) = f r)
    (l : List PeriodResult) :
    ((l.map (setStatus t)).map (setDueDate c)).map f = l.map f := by
  induction l with
  | nil => rfl
  | cons r rest ih => simp only [List.map_cons, hs, hd, ih]

/-- The final results are the distribution results with only status and
due-date stamping applied, so every money field of mainResults agrees with
the distribution output. -/
theorem mainResults_map_due (t : Tenant) (start cur : HDate) :
    (mainResults t start cur).map (·.due) =
      (distribute ((t.rentHistory.map (·.amount)).sum)
        (preAllocResults t start cur)).map (·.due) := by
  simp only [mainResults]
  exact phases_map_field _ t cur (setStatus_due t) (setDueDate_due cur) _

theorem mainResults_map_overpaid (t : Tenant) (start cur : HDate) :
    (mainResults t start cur).map (·.overpaid) =
      (distribute ((t.rentHistory.map (·.amount)).sum)
        (preAllocResults t start cur)).map (·.overpaid) := by
  simp only [mainResults]
  exact phases_map_field _ t cur (setStatus_overpaid t) (setDueDate_overpaid cur) _

theorem mainResults_map_totalPaid (t : Tenant) (start cur : HDate) :
    (mainResults t start cur).map (·.totalPaid) =
      (distribute ((t.rentHistory.map (·.amount)).sum)
        (preAllocResults t start cur)).map (·.totalPaid) := by
  simp only [mainResults]
  exact phases_map_field _ t cur (setStatus_totalPaid t) (setDueDate_totalPaid cur) _

theorem mainResults_map_expRent (t : Tenant) (start cur : HDate) :
    (mainResults t start cur).map (·.totalExpectedRent) =
      (distribute ((t.rentHistory.map (·.amount)).sum)
        (preAllocResults t start cur)).map (·.totalExpectedRent) := by
  simp only [mainResults]
  exact phases_map_field _ t cur (setStatus_expRent t) (setDueDate_expRent cur) _

end Properties

/-- The credit list has one entry per expected total. -/
theorem fifoCredits_length (es : List ℚ) :
    ∀ pool : ℚ, (fifoCredits pool es).length = es.length := by
  induction es with
  | nil => intro pool; rfl
  | cons e es ih => intro pool; simp [fifoCredits, ih]

namespace Properties

theorem addElecAux_length (pid : Nat) (cost : ℚ) (l : List PeriodResult) :
    (addElecAux pid cost l).length = l.length := by
  induction l with
  | nil => rfl
  | cons r rest ih =>
      rw [addElecAux]
      split_ifs <;> simp [ih]

theorem preAllocResults_length (t : Tenant) (start cur : HDate) :
    (preAllocResults t start cur).length =
      (buildPeriods t start (t.endingDate.getD cur)).length := by
  simp only [preAllocResults, addElec, baseResults]
  cases t.propertyId with
  | none => simp
  | some pid =>
      split_ifs <;> simp [addElecAux_length]

theorem calc_eq_mainResults (t : Tenant) (cur sd : HDate)
    (hsd : t.startingDate = some sd)
    (hmain : ¬(t.propertyId = none ∧ hasValidHistory t = false)) :
    calculateTenantStatusAndDue t cur = mainResults t sd cur := by
  unfold calculateTenantStatusAndDue
  rw [if_neg hmain, hsd]

end Properties

/-- C4. In the multi-period computation all recorded payments are summed
into a single pool and the per-period results are exactly the FIFO
credit of that pool against each period's combined expected total, with
any positive remainder recorded as overpayment on the most recent period:
per period, totalPaid is the minimum of the remaining pool and the
expected total (plus the remainder on the last period), due is the clamped
shortfall, and overpaid is zero except for the remainder on the last
period. -/
theorem c4_fifo_allocation (t : Tenant) (cur sd : HDate)
    (hsd : t.startingDate = some sd)
    (hmain : ¬(t.propertyId = none ∧ Properties.hasValidHistory t = false)) :
    let pool := (t.rentHistory.map (·.amount)).sum
    let es := (Properties.preAllocResults t sd cur).map Properties.expectedTotal
    let credits := fifoCredits pool es
    let rem := fifoRemainder pool es
    let rs := Properties.calculateTenantStatusAndDue t cur
    rs.map (·.totalPaid) = (if 0 < rem then bumpLast rem credits else credits) ∧
      rs.map (·.due) = (es.zip credits).map (fun q => max 0 (q.1 - q.2)) ∧
      rs.map (·.overpaid) = overpaidSpec rem es.length := by
  intro pool es credits rem rs
  have hcalc : rs = Properties.mainResults t sd cur :=
    Properties.calc_eq_mainResults t cur sd hsd hmain
  refine ⟨?_, ?_, ?_⟩
  · rw [hcalc, Properties.mainResults_map_totalPaid, Properties.distribute_map_totalPaid]
  · rw [hcalc, Properties.mainResults_map_due, Properties.distribute_map_due]
  · rw [hcalc, Properties.mainResults_map_overpaid, Properties.distribute_map_overpaid]
    simp [es]

/-- C4, witness. Scenario C: the tenant moved from property 1 to property
2, with a single payment of 12000; property 1's period (expected 10500) is
credited in full first and only the remaining 1500 goes to property 2. -/
theorem c4_fifo_allocation_witness :
    ((Properties.calculateTenantStatusAndDue scenarioCTenant ⟨2024, 5, 1⟩).map
        (·.totalPaid) = [10500, 1500] ∧
      (Properties.calculateTenantStatusAndDue scenarioCTenant ⟨2024, 5, 1⟩).map
        (·.due) = [0, 6000]) ∧
      (let pool := (scenarioCTenant.rentHistory.map (·.amount)).sum
      let es := (Properties.preAllocResults scenarioCTenant ⟨2024, 0, 1⟩
        ⟨2024, 5, 1⟩).map Properties.expectedTotal
      let credits := fifoCredits pool es
      let rem := fifoRemainder pool es
      let rs := Properties.calculateTenantStatusAndDue scenarioCTenant ⟨2024, 5, 1⟩
      rs.map (·.totalPaid) = (if 0 < rem then bumpLast rem credits else credits) ∧
        rs.map (·.due) = (es.zip credits).map (fun q => max 0 (q.1 - q.2)) ∧
        rs.map (·.overpaid) = overpaidSpec rem es.length) :=
  ⟨by decide,
    c4_fifo_allocation scenarioCTenant ⟨2024, 5, 1⟩ ⟨2024, 0, 1⟩ rfl (by decide)⟩

/-- C10. When a tenant reaches the multi-period main computation and it
yields at least one occupancy period, and all recorded payment amounts are
nonnegative, the totalPaid fields over all periods sum to exactly the
total of all recorded payments: the FIFO credit plus the leftover
recorded on the last period conserve the pool. -/
theorem c10_payment_conservation (t : Tenant) (cur sd : HDate)
    (hsd : t.startingDate = some sd)
    (hmain : ¬(t.propertyId = none ∧ Properties.hasValidHistory t = false))
    (hper : Properties.buildPeriods t sd (t.endingDate.getD cur) ≠ [])
    (hpos : ∀ p ∈ t.rentHistory, 0 ≤ p.amount) :
    ((Properties.calculateTenantStatusAndDue t cur).map (·.totalPaid)).sum =
      (t.rentHistory.map (·.amount)).sum := by
  rw [Properties.calc_eq_mainResults t cur sd hsd hmain,
    Properties.mainResults_map_totalPaid, Properties.distribute_map_totalPaid]
  have hpool : 0 ≤ (t.rentHistory.map (·.amount)).sum := by
    apply List.sum_nonneg
    intro x hx
    obtain ⟨p, hp, rfl⟩ := List.mem_map.mp hx
    exact hpos p hp
  have hsum := fifoCredits_sum_add_remainder
    ((Properties.preAllocResults t sd cur).map Properties.expectedTotal)
    ((t.rentHistory.map (·.amount)).sum)
  have hremnn := fifoRemainder_nonneg
    ((Properties.preAllocResults t sd cur).map Properties.expectedTotal)
    ((t.rentHistory.map (·.amount)).sum) hpool
  have hne : (Properties.preAllocResults t sd cur) ≠ [] := by
    intro h0
    apply hper
    have := Properties.preAllocResults_length t sd cur
    rw [h0] at this
    exact List.length_eq_zero.mp this.symm
  split_ifs with h
  · rw [bumpLast_sum]
    · linarith
    · intro h0
      apply hne
      have := fifoCredits_length
        ((Properties.preAllocResults t sd cur).map Properties.expectedTotal)
        ((t.rentHistory.map (·.amount)).sum)
      rw [h0] at this
      exact List.map_eq_nil_iff.mp (List.length_eq_zero.mp this.symm)
  · have : fifoRemainder ((t.rentHistory.map (·.amount)).sum)
        ((Properties.preAllocResults t sd cur).map Properties.expectedTotal) = 0 :=
      le_antisymm (not_lt.mp h) hremnn
    linarith

/-- C10, witness. The conservation theorem applied to Scenario C: the two
periods' totalPaid values 10500 and 1500 sum to the single recorded
payment of 12000. -/
theorem c10_payment_conservation_witness :
    ((Properties.calculateTenantStatusAndDue scenarioCTenant ⟨2024, 5, 1⟩).map
        (·.totalPaid)).sum =
      (scenarioCTenant.rentHistory.map (·.amount)).sum :=
  c10_payment_conservation scenarioCTenant ⟨2024, 5, 1⟩ ⟨2024, 0, 1⟩ rfl
    (by decide) (by decide) (by decide)

/-- Appending a flat-rent payment adds its amount to the flat-rent sum. -/
theorem flatSum_append (l : List Payment) (a : ℚ) :
    ((((l ++ [(⟨a, some "flat_rent", none⟩ : Payment)]).filter fun rh =>
        decide (rh.rentType = some "flat_rent" ∨ rh.rentType = none)).map
      (·.amount)).sum) =
      (((l.filter fun rh =>
          decide (rh.rentType = some "flat_rent" ∨ rh.rentType = none)).map
        (·.amount)).sum) + a := by
  simp [List.filter_append]

/-- Appending a flat-rent payment leaves the electricity sum unchanged. -/
theorem elecSum_append_flat (l : List Payment) (a : ℚ) :
    ((((l ++ [(⟨a, some "flat_rent", none⟩ : Payment)]).filter fun rh =>
        decide (rh.rentType = some "electricity")).map (·.amount)).sum) =
      (((l.filter fun rh =>
          decide (rh.rentType = some "electricity")).map (·.amount)).sum) := by
  simp [List.filter_append]

/-- Projection facts about appending a payment: only rentHistory changes. -/
theorem appendPayment_rentHistory (t : Tenant) (p : Payment) :
    (appendPayment t p).rentHistory = t.rentHistory ++ [p] := rfl

theorem appendPayment_rentChanges (t : Tenant) (p : Payment) :
    (appendPayment t p).rentChanges = t.rentChanges := rfl

theorem appendPayment_endingDate (t : Tenant) (p : Payment) :
    (appendPayment t p).endingDate = t.endingDate := rfl

theorem appendPayment_tenantHistory (t : Tenant) (p : Payment) :
    (appendPayment t p).tenantHistory = t.tenantHistory := rfl

theorem appendPayment_unitId (t : Tenant) (p : Payment) :
    (appendPayment t p).unitId = t.unitId := rfl

theorem appendPayment_startingDate (t : Tenant) (p : Payment) :
    (appendPayment t p).startingDate = t.startingDate := rfl

theorem appendPayment_monthlyRent (t : Tenant) (p : Payment) :
    (appendPayment t p).monthlyRent = t.monthlyRent := rfl

theorem elecCost_append (t : Tenant) (p : Payment) :
    elecCost (appendPayment t p) = elecCost t := rfl

/-- Growing the remainder grows the clamped last-period overpayment. -/
theorem overpaid_sum_mono {rp rq : ℚ} (hle : rp ≤ rq) (n : Nat) :
    (if 0 < rp ∧ n ≠ 0 then rp else 0) ≤ (if 0 < rq ∧ n ≠ 0 then rq else 0) := by
  by_cases hn : n = 0
  · simp [hn]
  · by_cases hp : 0 < rp
    · rw [if_pos ⟨hp, hn⟩, if_pos ⟨lt_of_lt_of_le hp hle, hn⟩]
      exact hle
    · rw [if_neg (by tauto)]
      by_cases hq : 0 < rq
      · rw [if_pos ⟨hq, hn⟩]
        exact le_of_lt hq
      · rw [if_neg (by tauto)]

namespace Tenants

/-- Appending a flat-rent payment to the single-tenant main computation
never increases due and never decreases overpaid. -/
theorem mainBilling_append_flat (t : Tenant) (start cur : HDate) (a : ℚ)
    (ha : 0 ≤ a) :
    (mainBilling (appendPayment t ⟨a, some "flat_rent", none⟩) start cur).due ≤
        (mainBilling t start cur).due ∧
      (mainBilling t start cur).overpaid ≤
        (mainBilling (appendPayment t ⟨a, some "flat_rent", none⟩) start cur).overpaid := by
  simp only [mainBilling, elecCost_append, appendPayment_rentChanges,
    appendPayment_endingDate, appendPayment_tenantHistory,
    appendPayment_rentHistory, appendPayment_unitId, appendPayment_startingDate,
    appendPayment_monthlyRent]
  simp only [flatSum_append, elecSum_append_flat]
  constructor
  · split_ifs <;> linarith
  · split_ifs <;> linarith

end Tenants

namespace Properties

/-- Appending any nonnegative payment to a tenant leaves the pre-allocation
results unchanged and only grows the pool, so the summed due over the
multi-period main computation never increases and the summed overpaid
never decreases. -/
theorem mainResults_append_monotone (t : Tenant) (start cur : HDate)
    (p : Payment) (ha : 0 ≤ p.amount) :
    ((mainResults (appendPayment t p) start cur).map (·.due)).sum ≤
        ((mainResults t start cur).map (·.due)).sum ∧
      ((mainResults t start cur).map (·.overpaid)).sum ≤
        ((mainResults (appendPayment t p) start cur).map (·.overpaid)).sum := by
  have hpre : preAllocResults (appendPayment t p) start cur =
      preAllocResults t start cur := rfl
  have hpool : ((appendPayment t p).rentHistory.map (·.amount)).sum =
      (t.rentHistory.map (·.amount)).sum + p.amount := by
    simp [appendPayment]
  have hle : (t.rentHistory.map (·.amount)).sum ≤
      ((appendPayment t p).rentHistory.map (·.amount)).sum := by
    rw [hpool]; linarith
  constructor
  · rw [mainResults_map_due, mainResults_map_due, distribute_map_due,
      distribute_map_due, hpre]
    exact fifo_sumDue_antitone _ hle
  · rw [mainResults_map_overpaid, mainResults_map_overpaid, distribute_map_overpaid,
      distribute_map_overpaid, hpre]
    rw [overpaidSpec_sum, overpaidSpec_sum]
    have hrem := fifoRemainder_mono
      ((preAllocResults t start cur).map expectedTotal) hle
    exact overpaid_sum_mono hrem _

end Properties

/-- C8. For every tenant snapshot and fixed evaluation instant, appending
one rent payment with nonnegative amount never increases the computed due
and never decreases the computed overpaid, in the single-tenant
computation and in the summed multi-period computation alike. -/
theorem c8_payment_monotone (t : Tenant) (cur : HDate) (a : ℚ) (ha : 0 ≤ a) :
    (Tenants.calculateTenantStatusAndDue
        (appendPayment t ⟨a, some "flat_rent", none⟩) cur).due ≤
        (Tenants.calculateTenantStatusAndDue t cur).due ∧
      (Tenants.calculateTenantStatusAndDue t cur).overpaid ≤
        (Tenants.calculateTenantStatusAndDue
          (appendPayment t ⟨a, some "flat_rent", none⟩) cur).overpaid ∧
      ((Properties.calculateTenantStatusAndDue
          (appendPayment t ⟨a, some "flat_rent", none⟩) cur).map (·.due)).sum ≤
        ((Properties.calculateTenantStatusAndDue t cur).map (·.due)).sum ∧
      ((Properties.calculateTenantStatusAndDue t cur).map (·.overpaid)).sum ≤
        ((Properties.calculateTenantStatusAndDue
          (appendPayment t ⟨a, some "flat_rent", none⟩) cur).map (·.overpaid)).sum := by
  have htenants :
      (Tenants.calculateTenantStatusAndDue
          (appendPayment t ⟨a, some "flat_rent", none⟩) cur).due ≤
        (Tenants.calculateTenantStatusAndDue t cur).due ∧
      (Tenants.calculateTenantStatusAndDue t cur).overpaid ≤
        (Tenants.calculateTenantStatusAndDue
          (appendPayment t ⟨a, some "flat_rent", none⟩) cur).overpaid := by
    unfold Tenants.calculateTenantStatusAndDue
    by_cases h1 : t.unitId = none ∧ t.startingDate = none
    · rw [if_pos h1, if_pos (by simpa [appendPayment] using h1)]
      simp [Tenants.emptyBilling]
    · rw [if_neg h1, if_neg (by simpa [appendPayment] using h1)]
      cases hstart : t.startingDate with
      | none => simp [appendPayment, hstart, Tenants.emptyBilling]
      | some start =>
          have h2 : (appendPayment t ⟨a, some "flat_rent", none⟩).startingDate =
              some start := by simpa [appendPayment] using hstart
          rw [h2]
          exact Tenants.mainBilling_append_flat t start cur a ha
  refine ⟨htenants.1, htenants.2, ?_⟩
  unfold Properties.calculateTenantStatusAndDue
  by_cases h1 : t.propertyId = none ∧ Properties.hasValidHistory t = false
  · rw [if_pos h1, if_pos (by simpa [appendPayment, Properties.hasValidHistory] using h1)]
    simp
  · rw [if_neg h1, if_neg (by simpa [appendPayment, Properties.hasValidHistory] using h1)]
    cases hstart : t.startingDate with
    | none => simp [appendPayment, hstart]
    | some start =>
        have h2 : (appendPayment t ⟨a, some "flat_rent", none⟩).startingDate =
            some start := by simpa [appendPayment] using hstart
        rw [h2]
        exact Properties.mainResults_append_monotone t start cur _ ha

/-- C8, witness. Appending a rent payment of 5000 to the Scenario A tenant
satisfies the monotonicity statement. -/
theorem c8_payment_monotone_witness :
    (0 : ℚ) ≤ 5000 ∧
      ((Tenants.calculateTenantStatusAndDue
          (appendPayment scenarioATenant ⟨5000, some "flat_rent", none⟩)
          ⟨2024, 2, 1⟩).due ≤
          (Tenants.calculateTenantStatusAndDue scenarioATenant ⟨2024, 2, 1⟩).due ∧
        (Tenants.calculateTenantStatusAndDue scenarioATenant ⟨2024, 2, 1⟩).overpaid ≤
          (Tenants.calculateTenantStatusAndDue
            (appendPayment scenarioATenant ⟨5000, some "flat_rent", none⟩)
            ⟨2024, 2, 1⟩).overpaid ∧
        ((Properties.calculateTenantStatusAndDue
            (appendPayment scenarioATenant ⟨5000, some "flat_rent", none⟩)
            ⟨2024, 2, 1⟩).map (·.due)).sum ≤
          ((Properties.calculateTenantStatusAndDue scenarioATenant
            ⟨2024, 2, 1⟩).map (·.due)).sum ∧
        ((Properties.calculateTenantStatusAndDue scenarioATenant
            ⟨2024, 2, 1⟩).map (·.overpaid)).sum ≤
          ((Properties.calculateTenantStatusAndDue
            (appendPayment scenarioATenant ⟨5000, some "flat_rent", none⟩)
            ⟨2024, 2, 1⟩).map (·.overpaid)).sum) :=
  ⟨by decide, c8_payment_monotone scenarioATenant ⟨2024, 2, 1⟩ 5000 (by decide)⟩

/-- Appending a payment that is not flat-rent-or-untagged leaves the
flat-rent sum unchanged. -/
theorem flatSum_append_elec (l : List Payment) (p : Payment)
    (hp : p.rentType = some "electricity") :
    ((((l ++ [p]).filter fun rh =>
        decide (rh.rentType = some "flat_rent" ∨ rh.rentType = none)).map
      (·.amount)).sum) =
      (((l.filter fun rh =>
          decide (rh.rentType = some "flat_rent" ∨ rh.rentType = none)).map
        (·.amount)).sum) := by
  simp [List.filter_append, hp]

/-- Appending a flat-rent or untagged payment leaves the electricity sum
unchanged. -/
theorem elecSum_append_rent (l : List Payment) (q : Payment)
    (hq : q.rentType = some "flat_rent" ∨ q.rentType = none) :
    ((((l ++ [q]).filter fun rh =>
        decide (rh.rentType = some "electricity")).map (·.amount)).sum) =
      (((l.filter fun rh =>
          decide (rh.rentType = some "electricity")).map (·.amount)).sum) := by
  rcases hq with hq | hq <;> simp [List.filter_append, hq]

namespace Tenants

/-- In the single-tenant main computation, an electricity payment does not
change the rent-side balances. -/
theorem mainBilling_elec_rentSide (t : Tenant) (start cur : HDate) (p : Payment)
    (hp : p.rentType = some "electricity") :
    (mainBilling (appendPayment t p) start cur).rentDue =
        (mainBilling t start cur).rentDue ∧
      (mainBilling (appendPayment t p) start cur).rentOverpaid =
        (mainBilling t start cur).rentOverpaid := by
  simp only [mainBilling, elecCost_append, appendPayment_rentChanges,
    appendPayment_endingDate, appendPayment_tenantHistory,
    appendPayment_rentHistory, appendPayment_unitId, appendPayment_startingDate,
    appendPayment_monthlyRent]
  rw [flatSum_append_elec t.rentHistory p hp]
  exact ⟨rfl, rfl⟩

/-- In the single-tenant main computation, a rent payment does not change
the electricity-side balances. -/
theorem mainBilling_rent_elecSide (t : Tenant) (start cur : HDate) (q : Payment)
    (hq : q.rentType = some "flat_rent" ∨ q.rentType = none) :
    (mainBilling (appendPayment t q) start cur).electricityDue =
        (mainBilling t start cur).electricityDue ∧
      (mainBilling (appendPayment t q) start cur).electricityOverpaid =
        (mainBilling t start cur).electricityOverpaid := by
  simp only [mainBilling, elecCost_append, appendPayment_rentChanges,
    appendPayment_endingDate, appendPayment_tenantHistory,
    appendPayment_rentHistory, appendPayment_unitId, appendPayment_startingDate,
    appendPayment_monthlyRent]
  rw [elecSum_append_rent t.rentHistory q hq]
  exact ⟨rfl, rfl⟩

end Tenants

/-- C5, counterexample. In the multi-period computation the pool mixes
payment kinds: the tenant owes one full rent month (10000) and nothing for
electricity, yet recording a single electricity payment of 3000 lowers the
summed due from 10000 to 7000 — an electricity payment reduced a pure
rent debt, so the two balances do offset there. -/
theorem c5_pool_counterexample :
    elecCost elecPoolTenant = 0 ∧
      elecPoolTenant =
        appendPayment elecPoolTenantNoPay ⟨3000, some "electricity", none⟩ ∧
      ((Properties.calculateTenantStatusAndDue elecPoolTenantNoPay
          ⟨2024, 0, 31⟩).map (·.due)).sum = 10000 ∧
      ((Properties.calculateTenantStatusAndDue elecPoolTenant
          ⟨2024, 0, 31⟩).map (·.due)).sum = 7000 := by
  refine ⟨by decide, by decide, by decide, by decide⟩

/-- C5, amended. In the single-tenant computation the four split balances
are tracked independently: appending an electricity payment leaves rentDue
and rentOverpaid unchanged, and appending a rent (flat or untagged)
payment leaves electricityDue and electricityOverpaid unchanged. In the
multi-period computation all payments are pooled against combined
rent-plus-electricity expectations, so the kinds can offset there (see the
counterexample). -/
theorem c5_balances_amended (t : Tenant) (cur : HDate) (p q : Payment)
    (hp : p.rentType = some "electricity")
    (hq : q.rentType = some "flat_rent" ∨ q.rentType = none) :
    (Tenants.calculateTenantStatusAndDue (appendPayment t p) cur).rentDue =
        (Tenants.calculateTenantStatusAndDue t cur).rentDue ∧
      (Tenants.calculateTenantStatusAndDue (appendPayment t p) cur).rentOverpaid =
        (Tenants.calculateTenantStatusAndDue t cur).rentOverpaid ∧
      (Tenants.calculateTenantStatusAndDue (appendPayment t q) cur).electricityDue =
        (Tenants.calculateTenantStatusAndDue t cur).electricityDue ∧
      (Tenants.calculateTenantStatusAndDue (appendPayment t q) cur).electricityOverpaid =
        (Tenants.calculateTenantStatusAndDue t cur).electricityOverpaid := by
  unfold Tenants.calculateTenantStatusAndDue
  by_cases h1 : t.unitId = none ∧ t.startingDate = none
  · rw [if_pos h1, if_pos (by simpa [appendPayment] using h1),
      if_pos (by simpa [appendPayment] using h1)]
    exact ⟨rfl, rfl, rfl, rfl⟩
  · rw [if_neg h1, if_neg (by simpa [appendPayment] using h1),
      if_neg (by simpa [appendPayment] using h1)]
    cases hstart : t.startingDate with
    | none =>
        rw [show (appendPayment t p).startingDate = none by
            simpa [appendPayment] using hstart,
          show (appendPayment t q).startingDate = none by
            simpa [appendPayment] using hstart]
        exact ⟨rfl, rfl, rfl, rfl⟩
    | some start =>
        rw [show (appendPayment t p).startingDate = some start by
            simpa [appendPayment] using hstart,
          show (appendPayment t q).startingDate = some start by
            simpa [appendPayment] using hstart]
        obtain ⟨he1, he2⟩ := Tenants.mainBilling_elec_rentSide t start cur p hp
        obtain ⟨hr1, hr2⟩ := Tenants.mainBilling_rent_elecSide t start cur q hq
        exact ⟨he1, he2, hr1, hr2⟩

/-- C5, witness. Appending an electricity payment of 3000 and a rent
payment of 4000 to the Scenario A tenant leaves the respective opposite
balances untouched. -/
theorem c5_balances_amended_witness :
    (Tenants.calculateTenantStatusAndDue
        (appendPayment scenarioATenant ⟨3000, some "electricity", none⟩)
        ⟨2024, 2, 1⟩).rentDue =
        (Tenants.calculateTenantStatusAndDue scenarioATenant ⟨2024, 2, 1⟩).rentDue ∧
      (Tenants.calculateTenantStatusAndDue
        (appendPayment scenarioATenant ⟨3000, some "electricity", none⟩)
        ⟨2024, 2, 1⟩).rentOverpaid =
        (Tenants.calculateTenantStatusAndDue scenarioATenant ⟨2024, 2, 1⟩).rentOverpaid ∧
      (Tenants.calculateTenantStatusAndDue
        (appendPayment scenarioATenant ⟨4000, some "flat_rent", none⟩)
        ⟨2024, 2, 1⟩).electricityDue =
        (Tenants.calculateTenantStatusAndDue scenarioATenant ⟨2024, 2, 1⟩).electricityDue ∧
      (Tenants.calculateTenantStatusAndDue
        (appendPayment scenarioATenant ⟨4000, some "flat_rent", none⟩)
        ⟨2024, 2, 1⟩).electricityOverpaid =
        (Tenants.calculateTenantStatusAndDue scenarioATenant
          ⟨2024, 2, 1⟩).electricityOverpaid :=
  c5_balances_amended scenarioATenant ⟨2024, 2, 1⟩ _ _ rfl (Or.inl rfl)

/-- Status is untouched by the due-date stamping. -/
theorem Properties.setDueDate_status (c : HDate) (r : Properties.PeriodResult) :
    (Properties.setDueDate c r).status = r.status := by
  simp only [Properties.setDueDate]; split_ifs <;> rfl

/-- C9, counterexample. A tenant with an explicit endingDate, a
startingDate, no current unit and zero rent has due 0, yet the
single-tenant computation classifies them Unassigned, not Inactive: the
no-unit status branch takes precedence over the ended branch. -/
theorem c9_counterexample :
    endedNoUnitTenant.endingDate.isSome = true ∧
      (Tenants.calculateTenantStatusAndDue endedNoUnitTenant ⟨2024, 2, 1⟩).due = 0 ∧
      (Tenants.calculateTenantStatusAndDue endedNoUnitTenant ⟨2024, 2, 1⟩).status =
        "Unassigned" ∧
      "Unassigned" ≠ "Inactive" := by
  refine ⟨by decide, by decide, by decide, by decide⟩

/-- C9, amended. A tenant with a startingDate and an explicit endingDate
is classified Inactive (whatever the due amount) by the single-tenant
computation provided a unit is currently assigned, and by every period of
the multi-period computation provided it reaches its main branch; with no
current unit the single-tenant computation instead reports Unassigned
(see the counterexample). -/
theorem c9_inactive_amended (t : Tenant) (cur : HDate)
    (hsd : t.startingDate.isSome = true) (hend : t.endingDate.isSome = true) :
    (t.unitId.isSome = true →
      (Tenants.calculateTenantStatusAndDue t cur).status = "Inactive") ∧
      (¬(t.propertyId = none ∧ Properties.hasValidHistory t = false) →
        ∀ r ∈ Properties.calculateTenantStatusAndDue t cur, r.status = "Inactive") := by
  obtain ⟨sd, hsd2⟩ := Option.isSome_iff_exists.mp hsd
  constructor
  · intro hunit
    obtain ⟨u, hu⟩ := Option.isSome_iff_exists.mp hunit
    unfold Tenants.calculateTenantStatusAndDue
    rw [hsd2, if_neg (by simp [hu])]
    simp only [Tenants.mainBilling]
    simp [hu, hend]
  · intro hmain r hr
    rw [Properties.calc_eq_mainResults t cur sd hsd2 hmain] at hr
    simp only [Properties.mainResults] at hr
    obtain ⟨r1, hr1, rfl⟩ := List.mem_map.mp hr
    obtain ⟨r0, hr0, rfl⟩ := List.mem_map.mp hr1
    rw [Properties.setDueDate_status]
    simp only [Properties.setStatus]
    split_ifs with h
    · simp [hend]
    · rfl

/-- C9, witness. A tenant with a unit, a property, a startingDate and an
endingDate is Inactive in both computations. -/
theorem c9_inactive_amended_witness :
    (Tenants.calculateTenantStatusAndDue endedWithUnitTenant ⟨2024, 2, 1⟩).status =
        "Inactive" ∧
      (Properties.calculateTenantStatusAndDue endedWithUnitTenant ⟨2024, 2, 1⟩).map
        (·.status) = ["Inactive"] :=
  ⟨(c9_inactive_amended endedWithUnitTenant ⟨2024, 2, 1⟩ (by decide) (by decide)).1
      (by decide),
    by decide⟩

/-- Bounds on the length of any month. -/
theorem monthLen_bounds (ym : Nat) : 28 ≤ monthLen ym ∧ monthLen ym ≤ 31 :=
  daysInMonth_bounds (ym / 12) (ym % 12)

/-- Characterisation of actualStart inside the month loop: when the month
at index ym lies at or after the (wellformed) period start, actualStart is
a day lo of that month, and a day d of the month is on or after the period
start exactly when lo is at most d. -/
theorem startDay_char (ym : Nat) (ps : HDate) (hwf : ps.Wellformed)
    (hym : ps.toYM ≤ ym) :
    ∃ lo : Nat,
      (if HDate.lt (ymDate ym 1) ps then ps else ymDate ym 1) = ymDate ym lo ∧
        1 ≤ lo ∧ lo ≤ monthLen ym ∧
        ∀ d : Nat, 1 ≤ d → (HDate.le ps (ymDate ym d) ↔ lo ≤ d) := by
  have hml := monthLen_bounds ym
  obtain ⟨py, pm, pd⟩ := ps
  obtain ⟨hm12, hd1, hd2⟩ := hwf
  dsimp only at hm12 hd1 hd2
  simp only [HDate.toYM] at hym
  by_cases hlt : HDate.lt (ymDate ym 1) ⟨py, pm, pd⟩
  · have hfields : py = ym / 12 ∧ pm = ym % 12 := by
      simp only [HDate.lt, ymDate] at hlt
      omega
    obtain ⟨hpyeq, hpmeq⟩ := hfields
    subst hpyeq hpmeq
    refine ⟨pd, by rw [if_pos hlt]; simp [ymDate], hd1, hd2, ?_⟩
    intro d hd
    simp only [HDate.le, ymDate, true_and, and_true, lt_self_iff_false, false_or,
      or_false, eq_self_iff_true]
    try omega
  · have hle := HDate.not_lt_iff_le.mp hlt
    refine ⟨1, by rw [if_neg hlt], le_refl 1, by omega, ?_⟩
    intro d hd
    constructor
    · intro _; exact hd
    · intro _
      refine HDate.le_trans hle ?_
      simp only [HDate.le, ymDate, true_and, and_true, lt_self_iff_false,
        false_or, or_false, eq_self_iff_true]
      omega

/-- Characterisation of finalEnd inside the month loop: when the first of
the month at index ym is on or before both the period end and the
evaluation instant, finalEnd is a day hi of that month, and a day d of the
month is within both bounds exactly when d is at most hi. -/
theorem endDay_char (ym : Nat) (pe cur : HDate)
    (hpe : HDate.le (ymDate ym 1) pe) (hcur : HDate.le (ymDate ym 1) cur) :
    ∃ hi : Nat,
      (if HDate.lt cur (if HDate.lt pe (ymDate ym (monthLen ym)) then pe
          else ymDate ym (monthLen ym)) then cur
        else if HDate.lt pe (ymDate ym (monthLen ym)) then pe
          else ymDate ym (monthLen ym)) = ymDate ym hi ∧
        1 ≤ hi ∧ hi ≤ monthLen ym ∧
        ∀ d : Nat, d ≤ monthLen ym →
          ((HDate.le (ymDate ym d) pe ∧ HDate.le (ymDate ym d) cur) ↔ d ≤ hi) := by
  have hml := monthLen_bounds ym
  obtain ⟨ey, em, ed⟩ := pe
  obtain ⟨cy, cm, cd⟩ := cur
  simp only [HDate.le, ymDate] at hpe hcur
  by_cases h1 : HDate.lt ⟨ey, em, ed⟩ (ymDate ym (monthLen ym))
  · rw [if_pos h1]
    have h1a := h1
    simp only [HDate.lt, ymDate] at h1a
    by_cases h2 : HDate.lt ⟨cy, cm, cd⟩ (⟨ey, em, ed⟩ : HDate)
    · rw [if_pos h2]
      have h2a := h2
      simp only [HDate.lt] at h2a
      have hcf : cy = ym / 12 ∧ cm = ym % 12 ∧ cd ≤ monthLen ym := by omega
      refine ⟨cd, ?_, by omega, hcf.2.2, ?_⟩
      · simp only [ymDate, HDate.mk.injEq]
        exact ⟨hcf.1, hcf.2.1, trivial⟩
      · intro d hd
        simp only [HDate.le, ymDate, true_and, and_true, lt_self_iff_false,
          false_or, or_false, eq_self_iff_true]
        omega
    · rw [if_neg h2]
      have h2a := HDate.not_lt_iff_le.mp h2
      simp only [HDate.le] at h2a
      have hef : ey = ym / 12 ∧ em = ym % 12 ∧ ed ≤ monthLen ym := by omega
      refine ⟨ed, ?_, by omega, hef.2.2, ?_⟩
      · simp only [ymDate, HDate.mk.injEq]
        exact ⟨hef.1, hef.2.1, trivial⟩
      · intro d hd
        simp only [HDate.le, ymDate, true_and, and_true, lt_self_iff_false,
          false_or, or_false, eq_self_iff_true]
        omega
  · rw [if_neg h1]
    have h1a := HDate.not_lt_iff_le.mp h1
    simp only [HDate.le, ymDate] at h1a
    by_cases h2 : HDate.lt ⟨cy, cm, cd⟩ (ymDate ym (monthLen ym))
    · rw [if_pos h2]
      have h2a := h2
      simp only [HDate.lt, ymDate] at h2a
      have hcf : cy = ym / 12 ∧ cm = ym % 12 ∧ cd ≤ monthLen ym := by omega
      refine ⟨cd, ?_, by omega, hcf.2.2, ?_⟩
      · simp only [ymDate, HDate.mk.injEq]
        exact ⟨hcf.1, hcf.2.1, trivial⟩
      · intro d hd
        simp only [HDate.le, ymDate, true_and, and_true, lt_self_iff_false,
          false_or, or_false, eq_self_iff_true]
        omega
    · rw [if_neg h2]
      have h2a := HDate.not_lt_iff_le.mp h2
      simp only [HDate.le, ymDate] at h2a
      refine ⟨monthLen ym, rfl, by omega, le_refl _, ?_⟩
      intro d hd
      simp only [HDate.le, ymDate, true_and, and_true, lt_self_iff_false,
        false_or, or_false, eq_self_iff_true]
      omega

/-- Inside the month loop, the rent billed for a visited month is exactly
the proration rule applied to the inclusive number of days of overlap
between that month, the occupancy interval and the evaluation instant. -/
theorem monthExpected_prorate (ym : Nat) (ps pe cur : HDate)
    (changes : List RentChange) (rent : ℚ)
    (hwf : ps.Wellformed) (hym : ps.toYM ≤ ym)
    (hpe : HDate.le (ymDate ym 1) pe) (hcur : HDate.le (ymDate ym 1) cur) :
    monthExpected ym ps pe cur changes rent =
      prorationRule (overlapDays ym ps pe cur) (monthLen ym)
        (getRentForMonth (ym / 12) (ym % 12) changes rent) := by
  have hml := monthLen_bounds ym
  obtain ⟨lo, hAS, hlo1, hlodim, hloc⟩ := startDay_char ym ps hwf hym
  obtain ⟨hi, hFE, hhi1, hhidim, hhic⟩ := endDay_char ym pe cur hpe hcur
  have hover : overlapDays ym ps pe cur = hi + 1 - lo := by
    unfold overlapDays
    have hset : (Finset.Icc 1 (monthLen ym)).filter (fun d =>
        HDate.le ps (ymDate ym d) ∧ HDate.le (ymDate ym d) pe ∧
          HDate.le (ymDate ym d) cur) = Finset.Icc lo hi := by
      ext d
      simp only [Finset.mem_filter, Finset.mem_Icc]
      constructor
      · rintro ⟨⟨hd1, hd2⟩, hps, hpe2, hcur2⟩
        exact ⟨(hloc d hd1).mp hps, (hhic d hd2).mp ⟨hpe2, hcur2⟩⟩
      · rintro ⟨h1, h2⟩
        have hd1 : 1 ≤ d := le_trans hlo1 h1
        have hd2 : d ≤ monthLen ym := le_trans h2 hhidim
        obtain ⟨hp, hc⟩ := (hhic d hd2).mpr h2
        exact ⟨⟨hd1, hd2⟩, (hloc d hd1).mpr h1, hp, hc⟩
    rw [hset, Nat.card_Icc]
  rw [hover]
  simp only [monthExpected]
  rw [hAS, hFE]
  simp only [ymDate]
  simp only [and_self, if_true]
  unfold prorationRule
  split_ifs <;> first | rfl | omega

/-- C1. For every month visited by the billing loop of an occupancy
interval with a wellformed start, letting daysOccupied be the inclusive
number of days of overlap between that month, the occupancy interval and
the not-after-now bound: the rent billed for the month is the full
applicable rent when daysOccupied is at least the number of days in the
month, also full at 16 or more days, half the applicable rent at 1 to 15
days, and zero at zero days. -/
theorem c1_proration_rule (ym : Nat) (ps pe cur : HDate)
    (changes : List RentChange) (rent : ℚ)
    (hwf : ps.Wellformed) (hym : ps.toYM ≤ ym)
    (hpe : HDate.le (ymDate ym 1) pe) (hcur : HDate.le (ymDate ym 1) cur) :
    (monthLen ym ≤ overlapDays ym ps pe cur →
        monthExpected ym ps pe cur changes rent =
          getRentForMonth (ym / 12) (ym % 12) changes rent) ∧
      (16 ≤ overlapDays ym ps pe cur →
        monthExpected ym ps pe cur changes rent =
          getRentForMonth (ym / 12) (ym % 12) changes rent) ∧
      (1 ≤ overlapDays ym ps pe cur → overlapDays ym ps pe cur ≤ 15 →
        monthExpected ym ps pe cur changes rent =
          getRentForMonth (ym / 12) (ym % 12) changes rent / 2) ∧
      (overlapDays ym ps pe cur = 0 →
        monthExpected ym ps pe cur changes rent = 0) := by
  have hml := monthLen_bounds ym
  rw [monthExpected_prorate ym ps pe cur changes rent hwf hym hpe hcur]
  unfold prorationRule
  refine ⟨?_, ?_, ?_, ?_⟩ <;> intro h1 <;> try intro h2
  · rw [if_pos h1]
  · split_ifs <;> first | rfl | omega
  · split_ifs <;> first | rfl | omega
  · split_ifs <;> first | rfl | omega

/-- C1, witness. January 2024 (31 days), occupancy from the 10th to the
20th evaluated on 2024-02-05: eleven days of overlap bill half of the
applicable rent 1000. -/
theorem c1_proration_rule_witness :
    overlapDays (2024 * 12) ⟨2024, 0, 10⟩ ⟨2024, 0, 20⟩ ⟨2024, 1, 5⟩ = 11 ∧
      monthExpected (2024 * 12) ⟨2024, 0, 10⟩ ⟨2024, 0, 20⟩ ⟨2024, 1, 5⟩ [] 1000 = 500 ∧
      (1 ≤ overlapDays (2024 * 12) ⟨2024, 0, 10⟩ ⟨2024, 0, 20⟩ ⟨2024, 1, 5⟩ →
        overlapDays (2024 * 12) ⟨2024, 0, 10⟩ ⟨2024, 0, 20⟩ ⟨2024, 1, 5⟩ ≤ 15 →
        monthExpected (2024 * 12) ⟨2024, 0, 10⟩ ⟨2024, 0, 20⟩ ⟨2024, 1, 5⟩ [] 1000 =
          getRentForMonth (2024 * 12 / 12) (2024 * 12 % 12) [] 1000 / 2) :=
  ⟨by decide, by decide,
    (c1_proration_rule (2024 * 12) ⟨2024, 0, 10⟩ ⟨2024, 0, 20⟩ ⟨2024, 1, 5⟩ [] 1000
      (by decide) (by decide) (by decide) (by decide)).2.2.1⟩

/-- Every month visited by the loop bills zero when the evaluation instant
precedes the (wellformed) period start. -/
theorem expectedLoop_zero (ps pe cur : HDate) (changes : List RentChange)
    (rent : ℚ) (hwf : ps.Wellformed) (hlt : HDate.lt cur ps) :
    ∀ fuel ym, ps.toYM ≤ ym →
      expectedLoop fuel ym ps pe cur changes rent = 0 := by
  intro fuel
  induction fuel with
  | zero => intro ym _; rfl
  | succ n ih =>
      intro ym hym
      rw [expectedLoop]
      split_ifs with h
      · rw [monthExpected_prorate ym ps pe cur changes rent hwf hym h.1 h.2]
        have hzero : overlapDays ym ps pe cur = 0 := by
          unfold overlapDays
          rw [Finset.card_eq_zero, Finset.filter_eq_empty_iff]
          intro d _
          rintro ⟨h1, _, h3⟩
          exact (HDate.not_lt_iff_le.mpr (HDate.le_trans h1 h3)) hlt
        have hml := monthLen_bounds ym
        rw [hzero, ih (ym + 1) (by omega)]
        unfold prorationRule
        rw [if_neg (by omega : ¬ (monthLen ym ≤ 0)),
          if_neg (by omega : ¬ (16 ≤ 0)), if_neg (by omega : ¬ (1 ≤ 0))]
        exact zero_add 0
      · rfl

/-- The whole month loop bills zero when the evaluation instant precedes
the (wellformed) period start: the continue-guard of the multi-period
computation is redundant. -/
theorem expectedRentForRange_zero (ps pe cur : HDate) (changes : List RentChange)
    (rent : ℚ) (hwf : ps.Wellformed) (hlt : HDate.lt cur ps) :
    expectedRentForRange ps pe cur changes rent = 0 := by
  unfold expectedRentForRange
  exact expectedLoop_zero ps pe cur changes rent hwf hlt _ ps.toYM (le_refl _)

/-- When every payment carries a known kind, the flat-rent sum and the
electricity sum together account for the whole payment list. -/
theorem paidSplit (l : List Payment) (hk : ∀ p ∈ l, knownKind p) :
    ((l.filter fun rh =>
        decide (rh.rentType = some "flat_rent" ∨ rh.rentType = none)).map
      (·.amount)).sum +
      ((l.filter fun rh =>
          decide (rh.rentType = some "electricity")).map (·.amount)).sum =
      (l.map (·.amount)).sum := by
  induction l with
  | nil => simp
  | cons p rest ih =>
      have hp := hk p (List.mem_cons_self p rest)
      have hrest := ih fun q hq => hk q (List.mem_cons_of_mem p hq)
      rcases hp with h | h | h
      · rw [List.filter_cons, if_pos (by simp [h]), List.filter_cons,
          if_neg (by simp [h])]
        simp only [List.map_cons, List.sum_cons]
        linarith
      · rw [List.filter_cons, if_pos (by simp [h]), List.filter_cons,
          if_neg (by simp [h])]
        simp only [List.map_cons, List.sum_cons]
        linarith
      · rw [List.filter_cons, if_neg (by simp [h]), List.filter_cons,
          if_pos (by simp [h])]
        simp only [List.map_cons, List.sum_cons]
        linarith

/-- Clamping a negated balance at zero is a maximum. -/
theorem ite_neg_eq_max (b : ℚ) : (if b < 0 then -b else 0) = max 0 (-b) := by
  by_cases h : b < 0
  · simp [h, max_eq_right (by linarith : (0:ℚ) ≤ -b)]
  · simp [h, max_eq_left (by linarith [not_lt.mp h] : -b ≤ (0:ℚ))]

/-- A single period is always credited the whole pool once the leftover is
folded back in. -/
theorem single_fifo_paid (P E : ℚ) :
    (if 0 < P - min P E then bumpLast (P - min P E) [min P E] else [min P E]).sum = P := by
  split_ifs with h
  · simp [bumpLast]
  · have h2 : min P E = P := le_antisymm (min_le_left P E) (by linarith)
    simp [h2]

/-- A single period's clamped shortfall from its FIFO credit is the
clamped shortfall from the whole pool. -/
theorem single_fifo_due (P E : ℚ) : max 0 (E - min P E) = max 0 (E - P) := by
  rcases le_total E P with h | h
  · rw [min_eq_right h, max_eq_left (by linarith), max_eq_left (by linarith)]
  · rw [min_eq_left h]

/-- A single period's recorded leftover is the clamped overpayment of the
whole pool. -/
theorem single_fifo_over (P E : ℚ) :
    (if 0 < P - min P E ∧ (1 : Nat) ≠ 0 then P - min P E else 0) = max 0 (P - E) := by
  rcases le_total E P with h | h
  · rw [min_eq_right h]
    by_cases h2 : 0 < P - E
    · rw [if_pos ⟨h2, one_ne_zero⟩, max_eq_right (le_of_lt h2)]
    · have h3 : P - E = 0 := le_antisymm (not_lt.mp h2) (by linarith)
      simp [h3]
  · rw [min_eq_left h, sub_self]
    rw [if_neg (by simp)]
    exact (max_eq_left (by linarith)).symm

/-- C6, counterexample. For a tenant whose history entry places them in
property 1 from 2024-01-10 while the current property is 2, the
single-tenant computation bills one continuous span (25000) while the
multi-period computation bills the move month in both periods (30000):
the two entry points do not apply identical segmentation. -/
theorem c6_counterexample :
    (Tenants.calculateTenantStatusAndDue midMoveTenant ⟨2024, 2, 1⟩).totalExpectedRent =
        25000 ∧
      ((Properties.calculateTenantStatusAndDue midMoveTenant ⟨2024, 2, 1⟩).map
        (·.totalExpectedRent)).sum = 30000 ∧
      (25000 : ℚ) ≠ 30000 := by
  refine ⟨by decide, by decide, by decide⟩

/-- C6, amended. The two computations agree on all four aggregates for
tenants with no assignment history: with a startingDate (a wellformed
calendar date), a current property, an empty tenantHistory and only
known payment kinds, the single-tenant aggregate expected rent, total
paid, due and overpaid equal the sums of the corresponding fields over
the multi-period results. With an assignment history the two entry points
segment differently and diverge (see the counterexample). -/
theorem c6_no_history_amended (t : Tenant) (cur sd : HDate) (pid : Nat)
    (hsd : t.startingDate = some sd) (hwf : sd.Wellformed)
    (hpid : t.propertyId = some pid) (hhist : t.tenantHistory = [])
    (hkinds : ∀ p ∈ t.rentHistory, knownKind p) :
    (Tenants.calculateTenantStatusAndDue t cur).totalExpectedRent =
        ((Properties.calculateTenantStatusAndDue t cur).map (·.totalExpectedRent)).sum ∧
      (Tenants.calculateTenantStatusAndDue t cur).totalPaid =
        ((Properties.calculateTenantStatusAndDue t cur).map (·.totalPaid)).sum ∧
      (Tenants.calculateTenantStatusAndDue t cur).due =
        ((Properties.calculateTenantStatusAndDue t cur).map (·.due)).sum ∧
      (Tenants.calculateTenantStatusAndDue t cur).overpaid =
        ((Properties.calculateTenantStatusAndDue t cur).map (·.overpaid)).sum := by
  have hmain : ¬(t.propertyId = none ∧ Properties.hasValidHistory t = false) := by
    simp [hpid]
  have hP := Properties.calc_eq_mainResults t cur sd hsd hmain
  have hT : Tenants.calculateTenantStatusAndDue t cur = Tenants.mainBilling t sd cur := by
    unfold Tenants.calculateTenantStatusAndDue
    rw [hsd, if_neg (by simp)]
  have hie : Tenants.inferredEnd t.tenantHistory = none := by rw [hhist]; rfl
  have hsh : Properties.sortedHistory t = [] := by
    unfold Properties.sortedHistory
    rw [hhist]
    rfl
  have hbp : Properties.buildPeriods t sd (t.endingDate.getD cur) =
      [⟨some pid, sd, t.endingDate.getD cur⟩] := by
    simp [Properties.buildPeriods, hsh, hpid]
  have hpre : Properties.preAllocResults t sd cur =
      [⟨some pid, "Inactive", 0, 0, none, 0,
        Properties.expectedForPeriod cur (sortChanges t.rentChanges) t.monthlyRent
          ⟨some pid, sd, t.endingDate.getD cur⟩,
        elecCost t⟩] := by
    simp [Properties.preAllocResults, hbp, Properties.baseResults,
      Properties.addElec, hpid, Properties.addElecAux]
  have hexp : Properties.expectedForPeriod cur (sortChanges t.rentChanges) t.monthlyRent
      ⟨some pid, sd, t.endingDate.getD cur⟩ =
      expectedRentForRange sd (t.endingDate.getD cur) cur (sortChanges t.rentChanges)
        t.monthlyRent := by
    unfold Properties.expectedForPeriod
    dsimp only
    split_ifs with h
    · exact (expectedRentForRange_zero sd (t.endingDate.getD cur) cur
        (sortChanges t.rentChanges) t.monthlyRent hwf h).symm
    · rfl
  have hme : (match t.endingDate with
      | some e => some e
      | none => Tenants.inferredEnd t.tenantHistory) = t.endingDate := by
    rw [hie]
    cases t.endingDate <;> rfl
  have hsplit := paidSplit t.rentHistory hkinds
  refine ⟨?_, ?_, ?_, ?_⟩
  · rw [hT, hP, Properties.mainResults_map_expRent, Properties.distribute_map_expRent,
      hpre]
    simp only [List.map_cons, List.map_nil, List.sum_cons, List.sum_nil, add_zero]
    rw [hexp]
    simp only [Tenants.mainBilling, hme]
  · rw [hT, hP, Properties.mainResults_map_totalPaid,
      Properties.distribute_map_totalPaid, hpre]
    simp only [List.map_cons, List.map_nil, Properties.expectedTotal, fifoCredits,
      fifoRemainder]
    rw [single_fifo_paid]
    simp only [Tenants.mainBilling, hme]
    exact hsplit
  · rw [hT, hP, Properties.mainResults_map_due, Properties.distribute_map_due, hpre]
    simp only [List.map_cons, List.map_nil, Properties.expectedTotal, fifoCredits,
      List.zip_cons_cons, List.zip_nil_right, List.sum_cons, List.sum_nil, add_zero]
    rw [single_fifo_due, hexp]
    simp only [Tenants.mainBilling, hme]
    rw [ite_pos_eq_max, hsplit]
  · rw [hT, hP, Properties.mainResults_map_overpaid, Properties.distribute_map_overpaid,
      hpre]
    simp only [List.map_cons, List.map_nil, List.length_cons, List.length_nil,
      Properties.expectedTotal, fifoRemainder]
    rw [overpaidSpec_sum]
    rw [single_fifo_over, hexp]
    simp only [Tenants.mainBilling, hme]
    rw [ite_neg_eq_max, hsplit, neg_sub]

/-- C6, witness. For a history-free tenant with one electricity payment,
the four aggregates of the single-tenant computation equal the sums over
the multi-period results. -/
theorem c6_no_history_amended_witness :
    (Tenants.calculateTenantStatusAndDue elecPoolTenant ⟨2024, 0, 31⟩).totalExpectedRent =
        ((Properties.calculateTenantStatusAndDue elecPoolTenant ⟨2024, 0, 31⟩).map
          (·.totalExpectedRent)).sum ∧
      (Tenants.calculateTenantStatusAndDue elecPoolTenant ⟨2024, 0, 31⟩).totalPaid =
        ((Properties.calculateTenantStatusAndDue elecPoolTenant ⟨2024, 0, 31⟩).map
          (·.totalPaid)).sum ∧
      (Tenants.calculateTenantStatusAndDue elecPoolTenant ⟨2024, 0, 31⟩).due =
        ((Properties.calculateTenantStatusAndDue elecPoolTenant ⟨2024, 0, 31⟩).map
          (·.due)).sum ∧
      (Tenants.calculateTenantStatusAndDue elecPoolTenant ⟨2024, 0, 31⟩).overpaid =
        ((Properties.calculateTenantStatusAndDue elecPoolTenant ⟨2024, 0, 31⟩).map
          (·.overpaid)).sum :=
  c6_no_history_amended elecPoolTenant ⟨2024, 0, 31⟩ ⟨2024, 0, 1⟩ 1 rfl (by decide)
    rfl rfl (by decide)
